import Mathlib

/-!
# steamappbot.js: app resolution over a TTL cache

A shallow embedding of `src/Misc/steamappbot/steamappbot.js`.

* JavaScript values are the type `JVal`; numbers are binary64 values held as the
  rational they denote (`JNum`), with round-to-nearest-even made explicit in `fl`.
* The module-level `cache`, the clock read by `Date.now()`, the replies the network
  will give to the successive `fetchJson` calls and the list of URLs requested so far
  form the explicit state `World`.
* An `async` function becomes a function `World → Option α × World`; `none` is a
  rejected promise (an exception thrown by `fetchJson` or by `String(..)`).
  One invocation runs to completion: handlers interleaving at an `await` are outside
  the model.
* A string is its list of code points; strings with unpaired surrogates are outside
  the model.
-/

namespace SteamAppBot

/-! ## JavaScript values -/

/-- A JavaScript number. A finite value is held as the rational it denotes (a value read
from JSON or produced by `fl` is a binary64 value); negative zero is identified with
zero, from which no operation of this program tells it apart. -/
inductive JNum where
  | fin (q : ℚ)
  | posInf
  | negInf
  | nan
deriving DecidableEq

/-- A JavaScript value as produced by `JSON.parse`, by property reads (`undefined`) and
by the object literals of the program. An object is its list of own properties. -/
inductive JVal where
  | undefined
  | null
  | bool (b : Bool)
  | num (n : JNum)
  | str (s : String)
  | arr (xs : List JVal)
  | obj (kvs : List (String × JVal))

namespace JVal

/-- ToBoolean: what `if (v)`, `!v` and `v ? a : b` test. -/
def truthy : JVal → Bool
  | undefined => false
  | null => false
  | bool b => b
  | num (JNum.fin q) => decide (q ≠ 0)
  | num JNum.nan => false
  | num _ => true
  | str s => decide (s ≠ "")
  | arr _ => true
  | obj _ => true

/-- The test `Array.isArray(v)`. -/
def isArray : JVal → Bool
  | arr _ => true
  | _ => false

/-- The test `Number.isFinite(v)`: a number, and neither NaN nor an infinity. -/
def isFiniteNumber : JVal → Bool
  | num (JNum.fin _) => true
  | _ => false

/-- First binding of a key in a property list. -/
def lookup (key : String) : List (String × JVal) → Option JVal
  | [] => none
  | (k, v) :: rest => if k = key then some v else lookup key rest

/-- A property key that is a canonical array index (`"0"`, `"17"`, not `"017"`). -/
def arrayIndex (key : String) : Option Nat :=
  match key.toNat? with
  | some n => if toString n = key then some n else none
  | none => none

/-- The optional-chaining read `v?.[key]` (also written `v?.key`): `undefined` on
`undefined` and `null`, the own property of an object, the element of an array or the
character of a string at an index key. Inherited properties (`length`, `constructor`,
...) read as `undefined`; the program reads none of them by name, and a value reached
through one has none of the fields the program goes on to read. -/
def get (v : JVal) (key : String) : JVal :=
  match v with
  | obj kvs => (lookup key kvs).getD undefined
  | arr xs =>
    match arrayIndex key with
    | some i => xs.getD i undefined
    | none => undefined
  | str s =>
    match arrayIndex key with
    | some i =>
      match s.toList.get? i with
      | some c => str (String.singleton c)
      | none => undefined
    | none => undefined
  | _ => undefined

/-- The test `v === null || v === undefined`. -/
def isNullish : JVal → Bool
  | undefined => true
  | null => true
  | _ => false

/-- The element read `v[0]` on an array. -/
def first : JVal → JVal
  | arr (x :: _) => x
  | _ => undefined

end JVal

/-! ## Host built-ins -/

/-- The parts of the JavaScript host that the embedding leaves open. -/
structure Host where
  /-- Unicode lower-casing of a code point above U+007F, given the text before it, the
  code point and the text after it. -/
  lowerNonAscii : List Char → Char → List Char → List Char
  /-- Number::toString of a finite value that is not an integer below 2^53 in magnitude:
  the shortest digits that read back as the value, padded with zeros or in exponent
  form. -/
  numberToString : ℚ → String
  /-- ToString of an array or object; `none` when the conversion throws a TypeError. -/
  objectToString : JVal → Option String

/-- The conversion `String(v)`; `none` when it throws. An integer below 2^53 in
magnitude prints as its decimal digits, which are the shortest digits that read back as
it; the digits of every other finite number are the host's. -/
def jsString (h : Host) : JVal → Option String
  | JVal.undefined => some "undefined"
  | JVal.null => some "null"
  | JVal.bool true => some "true"
  | JVal.bool false => some "false"
  | JVal.num (JNum.fin q) =>
    if q.den = 1 ∧ q.num.natAbs < 2 ^ 53 then some (toString q.num)
    else some (h.numberToString q)
  | JVal.num JNum.posInf => some "Infinity"
  | JVal.num JNum.negInf => some "-Infinity"
  | JVal.num JNum.nan => some "NaN"
  | JVal.str s => some s
  | JVal.arr xs => h.objectToString (JVal.arr xs)
  | JVal.obj kvs => h.objectToString (JVal.obj kvs)

/-! ## Strings -/

/-- WhiteSpace and LineTerminator code points of ECMAScript: what `trim` strips and what
`\s` matches. -/
def isJsSpace (c : Char) : Bool :=
  c.toNat == 9 || c.toNat == 10 || c.toNat == 11 || c.toNat == 12 || c.toNat == 13 ||
  c.toNat == 32 || c.toNat == 160 || c.toNat == 0x1680 ||
  (0x2000 ≤ c.toNat && c.toNat ≤ 0x200A) ||
  c.toNat == 0x2028 || c.toNat == 0x2029 || c.toNat == 0x202F || c.toNat == 0x205F ||
  c.toNat == 0x3000 || c.toNat == 0xFEFF

/-- The character class `[a-z0-9]`. -/
def isLowerAlnum (c : Char) : Bool :=
  (97 ≤ c.toNat && c.toNat ≤ 122) || (48 ≤ c.toNat && c.toNat ≤ 57)

/-- The character class `[0-9]`. -/
def isDigitChar (c : Char) : Bool :=
  48 ≤ c.toNat && c.toNat ≤ 57

/-- The character class `['"]`. -/
def isQuoteChar (c : Char) : Bool :=
  c.toNat == 39 || c.toNat == 34

/-- Lower-casing of an ASCII code point: `A`..`Z` to `a`..`z`, the rest unchanged. -/
def asciiLower (c : Char) : Char :=
  if 65 ≤ c.toNat ∧ c.toNat ≤ 90 then Char.ofNat (c.toNat + 32) else c

/-- Lower-casing of the code points of a text, the text before them given. -/
def lowerChars (h : Host) : List Char → List Char → List Char
  | _, [] => []
  | before, c :: rest =>
    (if c.toNat < 128 then [asciiLower c] else h.lowerNonAscii before c rest)
      ++ lowerChars h (before ++ [c]) rest

/-- The method `s.toLowerCase()`. -/
def toLowerCase (h : Host) (s : String) : String :=
  String.mk (lowerChars h [] s.toList)

/-- The method `s.trim()` on code points. -/
def trimChars (l : List Char) : List Char :=
  ((l.dropWhile isJsSpace).reverse.dropWhile isJsSpace).reverse

/-- The method `s.trim()`. -/
def jsTrim (s : String) : String :=
  String.mk (trimChars s.toList)

/-- The replacement `.replace(/['"]/g, "")`. -/
def removeQuotes (l : List Char) : List Char :=
  l.filter (fun c => !isQuoteChar c)

/-- The replacement `.replace(/[^a-z0-9]+/g, " ")`: `inRun` tells that the code point
before was part of the run being replaced. -/
def collapseNonAlnum : Bool → List Char → List Char
  | _, [] => []
  | inRun, c :: rest =>
    if isLowerAlnum c then c :: collapseNonAlnum false rest
    else if inRun then collapseNonAlnum true rest
    else ' ' :: collapseNonAlnum true rest

/-- The replacement `.replace(/\s+/g, "")`. -/
def removeSpaces (l : List Char) : List Char :=
  l.filter (fun c => !isJsSpace c)

/-- The function `normalizeLookupText(rawText)` for a string argument. -/
def normalizeLookupText (h : Host) (rawText : String) : String :=
  String.mk
    (removeSpaces (trimChars (collapseNonAlnum false (removeQuotes
      (lowerChars h [] rawText.toList)))))

/-- The function `isAllDigits(textValue)`: the test `/^[0-9]+$/.test(textValue)`. -/
def isAllDigits (textValue : String) : Bool :=
  !textValue.toList.isEmpty && textValue.toList.all isDigitChar

/-- The UTF-8 bytes of a code point. -/
def utf8Bytes (n : Nat) : List Nat :=
  if n < 0x80 then [n]
  else if n < 0x800 then [0xC0 + n / 64, 0x80 + n % 64]
  else if n < 0x10000 then [0xE0 + n / 4096, 0x80 + n / 64 % 64, 0x80 + n % 64]
  else [0xF0 + n / 262144, 0x80 + n / 4096 % 64, 0x80 + n / 64 % 64, 0x80 + n % 64]

/-- An upper-case hexadecimal digit. -/
def hexDigit (n : Nat) : Char :=
  if n < 10 then Char.ofNat (48 + n) else Char.ofNat (55 + n)

/-- The code points `encodeURIComponent` leaves as they are: `A-Z a-z 0-9 - _ . ! ~ * ' ( )`. -/
def isUnreserved (c : Char) : Bool :=
  (65 ≤ c.toNat && c.toNat ≤ 90) || (97 ≤ c.toNat && c.toNat ≤ 122) ||
  (48 ≤ c.toNat && c.toNat ≤ 57) ||
  c.toNat == 45 || c.toNat == 95 || c.toNat == 46 || c.toNat == 33 || c.toNat == 126 ||
  c.toNat == 42 || c.toNat == 39 || c.toNat == 40 || c.toNat == 41

/-- The function `encodeURIComponent(s)`. -/
def encodeURIComponent (s : String) : String :=
  String.mk (s.toList.flatMap fun c =>
    if isUnreserved c then [c]
    else (utf8Bytes c.toNat).flatMap fun b => ['%', hexDigit (b / 16), hexDigit (b % 16)])

/-! ## The cache -/

/-- A value of `cache.map`: `{ value, expiresAt }`. -/
structure CacheEntry where
  value : JVal
  expiresAt : Nat

/-- The method `Map.prototype.get` on a list of bindings. -/
def mapGet {α : Type} (m : List (String × α)) (key : String) : Option α :=
  match m with
  | [] => none
  | (k, v) :: rest => if k = key then some v else mapGet rest key

/-- The method `Map.prototype.set`: the binding of a present key is replaced where it
stands, a new key is added at the end. -/
def mapSet {α : Type} (m : List (String × α)) (key : String) (value : α) :
    List (String × α) :=
  match m with
  | [] => [(key, value)]
  | (k, v) :: rest => if k = key then (key, value) :: rest else (k, v) :: mapSet rest key value

/-- The method `Map.prototype.delete`. -/
def mapDelete {α : Type} (m : List (String × α)) (key : String) : List (String × α) :=
  m.filter (fun kv => decide (kv.1 ≠ key))

/-- The method `cache.get(key)` when `Date.now()` reads `now`: the value returned and the
map afterwards. -/
def cacheGet (m : List (String × CacheEntry)) (now : Nat) (key : String) :
    JVal × List (String × CacheEntry) :=
  match mapGet m key with
  | none => (JVal.null, m)
  | some cached =>
    if now > cached.expiresAt then (JVal.null, mapDelete m key)
    else (cached.value, m)

/-- The method `cache.set(key, value, ttlMs)` when `Date.now()` reads `now`. -/
def cacheSet (m : List (String × CacheEntry)) (now : Nat) (key : String) (value : JVal)
    (ttlMs : Nat) : List (String × CacheEntry) :=
  mapSet m key { value := value, expiresAt := now + ttlMs }

/-- A call on the cache: `cache.get(key)` or `cache.set(key, value, ttlMs)`. -/
inductive CacheOp where
  | get (key : String)
  | set (key : String) (value : JVal) (ttlMs : Nat)

/-- The key a call sets, if it is a `set`. -/
def CacheOp.setKey : CacheOp → Option String
  | CacheOp.get _ => none
  | CacheOp.set key _ _ => some key

/-- The map after one call made when `Date.now()` reads `now`. -/
def runCacheOp (m : List (String × CacheEntry)) (now : Nat) : CacheOp →
    List (String × CacheEntry)
  | CacheOp.get key => (cacheGet m now key).2
  | CacheOp.set key value ttlMs => cacheSet m now key value ttlMs

/-- The map after a sequence of calls, each with the time it is made at. -/
def runCacheOps (m : List (String × CacheEntry)) : List (Nat × CacheOp) →
    List (String × CacheEntry)
  | [] => m
  | (now, op) :: rest => runCacheOps (runCacheOp m now op) rest

/-! ## Binary64 arithmetic -/

/-- Exponent of the binade of a magnitude: `⌊log₂ a⌋`, and the least normal exponent
for the subnormal magnitudes (for zero, which every spacing divides, the exponent is
immaterial). -/
def binade (a : ℚ) : ℤ :=
  max (Int.log 2 a) (-1022)

/-- Spacing of the binary64 values in the binade of a magnitude (53-bit significand). -/
def ulp (a : ℚ) : ℚ :=
  (2 : ℚ) ^ (binade a - 52)

/-- Nearest integer, a tie going to the even one. -/
def roundHalfEven (x : ℚ) : ℤ :=
  if x - ⌊x⌋ < 1 / 2 then ⌊x⌋
  else if 1 / 2 < x - ⌊x⌋ then ⌊x⌋ + 1
  else if ⌊x⌋ % 2 = 0 then ⌊x⌋ else ⌊x⌋ + 1

/-- Rounding of an exact result to binary64, roundTiesToEven: the nearest multiple of the
spacing of its binade, and an infinity from `2^1024` on. -/
def fl (q : ℚ) : JNum :=
  if (2 : ℚ) ^ 1024 ≤ (roundHalfEven (|q| / ulp |q|) : ℚ) * ulp |q| then
    (if q < 0 then JNum.negInf else JNum.posInf)
  else
    JNum.fin (if q < 0 then -((roundHalfEven (|q| / ulp |q|) : ℚ) * ulp |q|)
      else (roundHalfEven (|q| / ulp |q|) : ℚ) * ulp |q|)

/-- A rational is a finite binary64 value when rounding leaves it as it is. -/
def IsDouble (q : ℚ) : Prop :=
  fl q = JNum.fin q

instance (q : ℚ) : Decidable (IsDouble q) :=
  inferInstanceAs (Decidable (fl q = JNum.fin q))

namespace JNum

/-- The operator `a + b` on numbers. -/
def add : JNum → JNum → JNum
  | fin a, fin b => fl (a + b)
  | nan, _ => nan
  | _, nan => nan
  | posInf, negInf => nan
  | negInf, posInf => nan
  | posInf, _ => posInf
  | _, posInf => posInf
  | negInf, _ => negInf
  | _, negInf => negInf

/-- The operator `a * b` on numbers. -/
def mul : JNum → JNum → JNum
  | fin a, fin b => fl (a * b)
  | nan, _ => nan
  | _, nan => nan
  | posInf, posInf => posInf
  | negInf, negInf => posInf
  | posInf, negInf => negInf
  | negInf, posInf => negInf
  | posInf, fin b => if b = 0 then nan else if 0 < b then posInf else negInf
  | negInf, fin b => if b = 0 then nan else if 0 < b then negInf else posInf
  | fin a, posInf => if a = 0 then nan else if 0 < a then posInf else negInf
  | fin a, negInf => if a = 0 then nan else if 0 < a then negInf else posInf

/-- The operator `a / b` on numbers; a zero divisor is taken as positive zero. -/
def div : JNum → JNum → JNum
  | fin a, fin b =>
    if b = 0 then (if a = 0 then nan else if 0 < a then posInf else negInf)
    else fl (a / b)
  | nan, _ => nan
  | _, nan => nan
  | fin _, posInf => fin 0
  | fin _, negInf => fin 0
  | posInf, fin b => if 0 ≤ b then posInf else negInf
  | negInf, fin b => if 0 ≤ b then negInf else posInf
  | posInf, posInf => nan
  | posInf, negInf => nan
  | negInf, posInf => nan
  | negInf, negInf => nan

/-- The test `a > 0` on numbers. -/
def isPositive : JNum → Bool
  | fin a => decide (0 < a)
  | posInf => true
  | negInf => false
  | nan => false

end JNum

/-- The operator `a + b` where both operands are numbers (`undefined` otherwise; the
program adds only after `Number.isFinite` held of both). -/
def jsAdd : JVal → JVal → JVal
  | JVal.num a, JVal.num b => JVal.num (JNum.add a b)
  | _, _ => JVal.undefined

/-- The operator `a / b` where both operands are numbers. -/
def jsDiv : JVal → JVal → JVal
  | JVal.num a, JVal.num b => JVal.num (JNum.div a b)
  | _, _ => JVal.undefined

/-- The operator `a * b` where both operands are numbers. -/
def jsMul : JVal → JVal → JVal
  | JVal.num a, JVal.num b => JVal.num (JNum.mul a b)
  | _, _ => JVal.undefined

/-- The test `a > 0` where `a` is a number. -/
def jsGtZero : JVal → Bool
  | JVal.num a => JNum.isPositive a
  | _ => false

/-! ## The world: cache, clock, network -/

/-- What the network answers to one `fetchJson` call: the time that passes while the
call is awaited, and the parsed body, or `none` when `fetchJson` throws (transport
failure, a status that is not ok, a body that is not JSON). -/
structure Reply where
  elapsed : Nat
  body : Option JVal

/-- The state one invocation runs in. -/
structure World where
  /-- The bindings of `cache.map`. -/
  cache : List (String × CacheEntry)
  /-- What `Date.now()` reads, in milliseconds. -/
  now : Nat
  /-- The replies to the `fetchJson` calls still to come, in order; once they are used
  up every call throws. -/
  replies : List Reply
  /-- The URLs requested so far, oldest first. -/
  log : List String

/-- The function `fetchJson(url)`, awaited. -/
def fetchJson (url : String) (w : World) : Option JVal × World :=
  match w.replies with
  | [] => (none, { w with log := w.log ++ [url] })
  | r :: rest =>
    (r.body, { w with now := w.now + r.elapsed, replies := rest, log := w.log ++ [url] })

/-- The call `cache.get(key)` in a world. -/
def World.cacheGet (w : World) (key : String) : JVal × World :=
  ((SteamAppBot.cacheGet w.cache w.now key).1,
    { w with cache := (SteamAppBot.cacheGet w.cache w.now key).2 })

/-- The call `cache.set(key, value, ttlMs)` in a world. -/
def World.cacheSet (w : World) (key : String) (value : JVal) (ttlMs : Nat) : World :=
  { w with cache := SteamAppBot.cacheSet w.cache w.now key value ttlMs }

/-- Time passing between two invocations. -/
def World.advance (w : World) (ms : Nat) : World :=
  { w with now := w.now + ms }

/-! ## The lookups -/

/-- The built-in alias map `builtInAliases`. -/
def builtInAliases : List (String × String) :=
  [("tf2", "440"),
   ("teamfortress2", "440"),
   ("tf2c", "3545060"),
   ("tf2classic", "3545060"),
   ("tf2classified", "3545060"),
   ("tf2gr", "3826520"),
   ("tfgr", "3826520"),
   ("tfgoldrush", "3826520"),
   ("tf2goldrush", "3826520"),
   ("dmc", "40"),
   ("tfc", "20"),
   ("deathmatchclassic", "40"),
   ("teamfortressclassic", "20")]

/-- The URL of the detail query of `getAppName`. -/
def appdetailsUrl (appid : String) : String :=
  "https://store.steampowered.com/api/appdetails?appids=" ++ encodeURIComponent appid
    ++ "&cc=us&l=en"

/-- The URL of the search query of `storeSearchFirst`. -/
def storesearchUrl (queryText : String) : String :=
  "https://store.steampowered.com/api/storesearch?term=" ++ encodeURIComponent queryText
    ++ "&l=en&cc=us"

/-- The URL of the aggregate query of `getReviewSummary`. -/
def appreviewsUrl (appid : String) : String :=
  "https://store.steampowered.com/appreviews/" ++ encodeURIComponent appid
    ++ "?json=1&filter=summary&language=all&purchase_type=all&review_type=all"
    ++ "&num_per_page=0&cursor=*"

/-- The function `getAppName(appid)`. -/
def getAppName (appid : String) (w : World) : Option JVal × World :=
  let cacheKey := "appname:" ++ appid
  let cachedName := (w.cacheGet cacheKey).1
  let w1 := (w.cacheGet cacheKey).2
  if cachedName.truthy then (some cachedName, w1)
  else
    match fetchJson (appdetailsUrl appid) w1 with
    | (none, w2) => (none, w2)
    | (some json, w2) =>
      let entry := json.get appid
      let success := entry.get "success"
      let name := (entry.get "data").get "name"
      if !success.truthy || !name.truthy then (some JVal.null, w2)
      else (some name, w2.cacheSet cacheKey name (24 * 60 * 60 * 1000))

/-- The constant `firstItem` of `storeSearchFirst`:
`Array.isArray(json?.items) ? json.items[0] : null`. -/
def searchFirstItem (json : JVal) : JVal :=
  if (json.get "items").isArray then (json.get "items").first else JVal.null

/-- The function `storeSearchFirst(queryText)`. -/
def storeSearchFirst (h : Host) (queryText : String) (w : World) : Option JVal × World :=
  let normalized := toLowerCase h (jsTrim queryText)
  let cacheKey := "storesearch:" ++ normalized
  let cached := (w.cacheGet cacheKey).1
  let w1 := (w.cacheGet cacheKey).2
  if cached.truthy then (some cached, w1)
  else
    match fetchJson (storesearchUrl queryText) w1 with
    | (none, w2) => (none, w2)
    | (some json, w2) =>
      let firstItem := searchFirstItem json
      if !(firstItem.get "appid").truthy || !(firstItem.get "name").truthy then
        (some JVal.null, w2.cacheSet cacheKey JVal.null (10 * 60 * 1000))
      else
        let result := JVal.obj [("appid", firstItem.get "appid"), ("name", firstItem.get "name")]
        (some result, w2.cacheSet cacheKey result (10 * 60 * 1000))

/-- The constant `percentPositive` of `getReviewSummary`:
`total > 0 ? (totalPositive / total) * 100 : 0`. -/
def percentPositiveOf (totalPositive total : JVal) : JVal :=
  if jsGtZero total then jsMul (jsDiv totalPositive total) (JVal.num (JNum.fin 100))
  else JVal.num (JNum.fin 0)

/-- The function `getReviewSummary(appid)`. -/
def getReviewSummary (h : Host) (appid : String) (w : World) : Option JVal × World :=
  let cacheKey := "reviews:" ++ appid
  let cached := (w.cacheGet cacheKey).1
  let w1 := (w.cacheGet cacheKey).2
  if cached.truthy then (some cached, w1)
  else
    match fetchJson (appreviewsUrl appid) w1 with
    | (none, w2) => (none, w2)
    | (some json, w2) =>
      let summary := json.get "query_summary"
      let reviewScoreDesc := summary.get "review_score_desc"
      let totalPositive := summary.get "total_positive"
      let totalNegative := summary.get "total_negative"
      if !reviewScoreDesc.truthy || !totalPositive.isFiniteNumber
          || !totalNegative.isFiniteNumber then
        (some JVal.null, w2.cacheSet cacheKey JVal.null (5 * 60 * 1000))
      else
        let total := jsAdd totalPositive totalNegative
        let percentPositive := percentPositiveOf totalPositive total
        match jsString h reviewScoreDesc with
        | none => (none, w2)
        | some label =>
          let result := JVal.obj
            [("label", JVal.str label),
             ("percentPositive", percentPositive),
             ("totalPositive", totalPositive),
             ("totalNegative", totalNegative),
             ("totalReviews", total)]
          (some result, w2.cacheSet cacheKey result (5 * 60 * 1000))

/-- The URL of the counter query of `getCurrentPlayers`, the key `STEAM_WEB_API_KEY` of
the environment given. -/
def playersUrl (apiKey appid : String) : String :=
  "https://api.steampowered.com/ISteamUserStats/GetNumberOfCurrentPlayers/v1/"
    ++ "?key=" ++ encodeURIComponent apiKey ++ "&appid=" ++ encodeURIComponent appid

/-- The function `getCurrentPlayers(appid)`; it throws on a count that is not a finite
number. -/
def getCurrentPlayers (apiKey : String) (appid : String) (w : World) : Option JVal × World :=
  let cacheKey := "players:" ++ appid
  let cached := (w.cacheGet cacheKey).1
  let w1 := (w.cacheGet cacheKey).2
  if !cached.isNullish then (some cached, w1)
  else
    match fetchJson (playersUrl apiKey appid) w1 with
    | (none, w2) => (none, w2)
    | (some json, w2) =>
      let playerCount := (json.get "response").get "player_count"
      if !playerCount.isFiniteNumber then (none, w2)
      else (some playerCount, w2.cacheSet cacheKey playerCount (30 * 1000))

/-- A review summary as `getReviewSummary` builds it from two finite counts: the counts
as they came, their binary64 sum, and a percentage that lies between 0 and 100 when
neither count is negative. -/
def IsSummary (v : JVal) : Prop :=
  ∃ (label : String) (p n : ℚ) (pct : JNum),
    v = JVal.obj
      [("label", JVal.str label),
       ("percentPositive", JVal.num pct),
       ("totalPositive", JVal.num (JNum.fin p)),
       ("totalNegative", JVal.num (JNum.fin n)),
       ("totalReviews", JVal.num (JNum.add (JNum.fin p) (JNum.fin n)))] ∧
    (0 ≤ p → 0 ≤ n → IsDouble p → ∃ x, pct = JNum.fin x ∧ 0 ≤ x ∧ x ≤ 100)

/-- The invariant of the cache that Summary Lookup relies on: a truthy value under a
key `reviews:<id>` is a review summary. It holds of the empty cache and every lookup
keeps it. -/
def ReviewsCacheOK (c : List (String × CacheEntry)) : Prop :=
  ∀ (appid : String) (e : CacheEntry),
    mapGet c ("reviews:" ++ appid) = some e → e.value.truthy = true → IsSummary e.value

/-- The object `{ appid, name, error }` returned by `resolveApp`. -/
structure ResolvedApp where
  appid : JVal
  name : JVal
  error : JVal

/-- The message of `resolveApp` for a search without result. -/
def noResultsMessage (trimmed : String) : String :=
  "No results found for " ++ String.singleton (Char.ofNat 34) ++ trimmed
    ++ String.singleton (Char.ofNat 34) ++ "."

/-- The end of `getAppName` callers in `resolveApp`: the object built from an id and the
name looked up for it. -/
def namedApp (appid : String) (r : Option JVal × World) : Option ResolvedApp × World :=
  match r with
  | (none, w1) => (none, w1)
  | (some name, w1) =>
    (some { appid := JVal.str appid, name := name,
            error := if name.truthy then JVal.null
                     else JVal.str "Could not fetch app name." }, w1)

/-- Step 3 of `resolveApp`: the store search on the trimmed input. -/
def resolveSearch (h : Host) (trimmed : String) (w : World) : Option ResolvedApp × World :=
  match storeSearchFirst h trimmed w with
  | (none, w1) => (none, w1)
  | (some searchResult, w1) =>
    if !searchResult.truthy then
      (some { appid := JVal.null, name := JVal.null,
              error := JVal.str (noResultsMessage trimmed) }, w1)
    else
      match jsString h (searchResult.get "appid") with
      | none => (none, w1)
      | some appid =>
        (some { appid := JVal.str appid, name := searchResult.get "name",
                error := JVal.null }, w1)

/-- The function `resolveApp(inputText)` for a string argument, over a given alias map. -/
def resolveAppWith (h : Host) (aliases : List (String × String)) (inputText : String)
    (w : World) : Option ResolvedApp × World :=
  let trimmed := jsTrim inputText
  if trimmed = "" then
    (some { appid := JVal.null, name := JVal.null, error := JVal.str "No app specified." }, w)
  else if isAllDigits trimmed then
    namedApp trimmed (getAppName trimmed w)
  else
    let normalized := normalizeLookupText h trimmed
    match mapGet aliases normalized with
    | some aliasAppid =>
      if aliasAppid = "" then resolveSearch h trimmed w
      else namedApp aliasAppid (getAppName aliasAppid w)
    | none => resolveSearch h trimmed w

/-- The function `resolveApp(inputText)`. -/
def resolveApp (h : Host) (inputText : String) (w : World) : Option ResolvedApp × World :=
  resolveAppWith h builtInAliases inputText w

/-! ## Sample data for the worked examples -/

/-- A host that leaves code points above U+007F as they are, prints every number with
`numberToString` as the empty text and every object as `[object Object]`. -/
def sampleHost : Host where
  lowerNonAscii := fun _ c _ => [c]
  numberToString := fun _ => ""
  objectToString := fun _ => some "[object Object]"

/-- A world with an empty cache at time 1000 and the given replies to come. -/
def freshWorld (replies : List Reply) : World :=
  { cache := [], now := 1000, replies := replies, log := [] }

/-- A detail reply for app 440 with a name. -/
def detailReplyNamed : Reply :=
  { elapsed := 120,
    body := some (JVal.obj [("440", JVal.obj [("success", JVal.bool true),
      ("data", JVal.obj [("name", JVal.str "Team Fortress 2")])])]) }

/-- A detail reply for app 440 without success. -/
def detailReplyFailed : Reply :=
  { elapsed := 120, body := some (JVal.obj [("440", JVal.obj [("success", JVal.bool false)])]) }

/-- A search reply without items. -/
def searchReplyEmpty : Reply :=
  { elapsed := 80, body := some (JVal.obj [("total", JVal.num (JNum.fin 0)),
      ("items", JVal.arr [])]) }

/-- A search reply with one item. -/
def searchReplyOne : Reply :=
  { elapsed := 80, body := some (JVal.obj [("total", JVal.num (JNum.fin 1)),
      ("items", JVal.arr [JVal.obj [("appid", JVal.str "620"), ("name", JVal.str "Portal 2")]])]) }

/-- An aggregate reply with 80 positive and 20 negative reviews. -/
def reviewReplyPositive : Reply :=
  { elapsed := 60,
    body := some (JVal.obj [("success", JVal.num (JNum.fin 1)),
      ("query_summary", JVal.obj [("review_score_desc", JVal.str "Positive"),
        ("total_positive", JVal.num (JNum.fin 80)),
        ("total_negative", JVal.num (JNum.fin 20))])]) }

/-- A search reply with one item whose id is a number, as the store sends it. -/
def searchReplyNumeric : Reply :=
  { elapsed := 80, body := some (JVal.obj [("total", JVal.num (JNum.fin 1)),
      ("items", JVal.arr [JVal.obj [("appid", JVal.num (JNum.fin 620)),
        ("name", JVal.str "Portal 2")]])]) }

/-- An aggregate reply with 7 positive and 18 negative reviews. -/
def reviewReplySeven : Reply :=
  { elapsed := 60,
    body := some (JVal.obj [("success", JVal.num (JNum.fin 1)),
      ("query_summary", JVal.obj [("review_score_desc", JVal.str "Mostly Negative"),
        ("total_positive", JVal.num (JNum.fin 7)),
        ("total_negative", JVal.num (JNum.fin 18))])]) }

/-- An aggregate reply with `2^53` positive reviews and 1 negative review. -/
def reviewReplyHuge : Reply :=
  { elapsed := 60,
    body := some (JVal.obj [("success", JVal.num (JNum.fin 1)),
      ("query_summary", JVal.obj [("review_score_desc", JVal.str "Positive"),
        ("total_positive", JVal.num (JNum.fin 9007199254740992)),
        ("total_negative", JVal.num (JNum.fin 1))])]) }

/-- An aggregate reply with a negative count. -/
def reviewReplyNegative : Reply :=
  { elapsed := 60,
    body := some (JVal.obj [("success", JVal.num (JNum.fin 1)),
      ("query_summary", JVal.obj [("review_score_desc", JVal.str "Mixed"),
        ("total_positive", JVal.num (JNum.fin 3)),
        ("total_negative", JVal.num (JNum.fin (-1)))])]) }

/-- An aggregate reply without a review summary. -/
def reviewReplyEmpty : Reply :=
  { elapsed := 60, body := some (JVal.obj [("success", JVal.num (JNum.fin 1))]) }

/-! ## Maps -/

theorem mapGet_mapSet {α : Type} (m : List (String × α)) (k k' : String) (v : α) :
    mapGet (mapSet m k v) k' = if k = k' then some v else mapGet m k' := by
  induction m with
  | nil => simp [mapSet, mapGet]
  | cons kv rest ih =>
    obtain ⟨a, b⟩ := kv
    by_cases hak : a = k
    · subst hak
      by_cases hk : a = k' <;> simp [mapSet, mapGet, hk]
    · by_cases hk : a = k'
      · subst hk
        have : ¬ k = a := fun e => hak e.symm
        simp [mapSet, mapGet, hak, this]
      · simp [mapSet, mapGet, hak, hk, ih]

theorem mapGet_mapDelete {α : Type} (m : List (String × α)) (k k' : String) :
    mapGet (mapDelete m k) k' = if k = k' then none else mapGet m k' := by
  induction m with
  | nil => simp [mapDelete, mapGet]
  | cons kv rest ih =>
    obtain ⟨a, b⟩ := kv
    unfold mapDelete at ih ⊢
    by_cases hak : a = k
    · subst hak
      by_cases hk : a = k'
      · simpa [List.filter, mapGet, hk] using ih
      · simpa [List.filter, mapGet, hk] using ih
    · by_cases hk : a = k'
      · subst hk
        have : ¬ k = a := fun e => hak e.symm
        simp [List.filter, mapGet, hak, this]
      · simpa [List.filter, mapGet, hak, hk] using ih

/-! ## The cache -/

theorem cacheGet_other (m : List (String × CacheEntry)) (now : Nat) (k k' : String)
    (hk : k ≠ k') : mapGet (cacheGet m now k).2 k' = mapGet m k' := by
  unfold cacheGet
  cases hg : mapGet m k with
  | none => rfl
  | some cached =>
    by_cases hexp : now > cached.expiresAt
    · simp [hexp, mapGet_mapDelete, hk]
    · simp [hexp]

theorem cacheGet_live (m : List (String × CacheEntry)) (now : Nat) (k : String)
    (e : CacheEntry) (hg : mapGet m k = some e) (hlive : now ≤ e.expiresAt) :
    cacheGet m now k = (e.value, m) := by
  unfold cacheGet
  have : ¬ now > e.expiresAt := Nat.not_lt.mpr hlive
  simp [hg, this]

theorem cacheGet_expired (m : List (String × CacheEntry)) (now : Nat) (k : String)
    (e : CacheEntry) (hg : mapGet m k = some e) (hexp : e.expiresAt < now) :
    cacheGet m now k = (JVal.null, mapDelete m k) := by
  unfold cacheGet
  simp [hg, hexp]

theorem cacheGet_absent (m : List (String × CacheEntry)) (now : Nat) (k : String)
    (hg : mapGet m k = none) : cacheGet m now k = (JVal.null, m) := by
  unfold cacheGet
  simp [hg]

theorem runCacheOps_keeps_live (k : String) (e : CacheEntry) (t : Nat)
    (ops : List (Nat × CacheOp)) :
    ∀ m : List (String × CacheEntry), mapGet m k = some e → t ≤ e.expiresAt →
      (∀ op ∈ ops, op.2.setKey ≠ some k) → (∀ op ∈ ops, op.1 ≤ t) →
      mapGet (runCacheOps m ops) k = some e := by
  induction ops with
  | nil => intro m hm _ _ _; simpa [runCacheOps] using hm
  | cons op rest ih =>
    intro m hm hlive hset htime
    obtain ⟨now, o⟩ := op
    have hnow : now ≤ t := htime (now, o) (List.mem_cons_self _ _)
    have ho : o.setKey ≠ some k := hset (now, o) (List.mem_cons_self _ _)
    have hstep : mapGet (runCacheOp m now o) k = some e := by
      cases o with
      | get key =>
        by_cases hkey : key = k
        · subst hkey
          simp [runCacheOp, cacheGet_live m now key e hm (le_trans hnow hlive), hm]
        · simp [runCacheOp, cacheGet_other m now key k hkey, hm]
      | set key value ttlMs =>
        have hkey : ¬ key = k := fun h => ho (by simp [CacheOp.setKey, h])
        simp [runCacheOp, cacheSet, mapGet_mapSet, hkey, hm]
    exact ih _ hstep hlive (fun op hop => hset op (List.mem_cons_of_mem _ hop))
      (fun op hop => htime op (List.mem_cons_of_mem _ hop))

theorem runCacheOps_entry_or_absent (k : String) (e : CacheEntry)
    (ops : List (Nat × CacheOp)) :
    ∀ m : List (String × CacheEntry), (mapGet m k = some e ∨ mapGet m k = none) →
      (∀ op ∈ ops, op.2.setKey ≠ some k) →
      (mapGet (runCacheOps m ops) k = some e ∨ mapGet (runCacheOps m ops) k = none) := by
  induction ops with
  | nil => intro m hm _; simpa [runCacheOps] using hm
  | cons op rest ih =>
    intro m hm hset
    obtain ⟨now, o⟩ := op
    have ho : o.setKey ≠ some k := hset (now, o) (List.mem_cons_self _ _)
    have hstep : mapGet (runCacheOp m now o) k = some e ∨
        mapGet (runCacheOp m now o) k = none := by
      cases o with
      | get key =>
        by_cases hkey : key = k
        · subst hkey
          rcases hm with hm | hm
          · by_cases hexp : e.expiresAt < now
            · right
              simp [runCacheOp, cacheGet_expired m now key e hm hexp, mapGet_mapDelete]
            · left
              simp [runCacheOp, cacheGet_live m now key e hm (Nat.not_lt.mp hexp), hm]
          · right
            simp [runCacheOp, cacheGet_absent m now key hm, hm]
        · simpa [runCacheOp, cacheGet_other m now key k hkey] using hm
      | set key value ttlMs =>
        have hkey : ¬ key = k := fun h => ho (by simp [CacheOp.setKey, h])
        simpa [runCacheOp, cacheSet, mapGet_mapSet, hkey] using hm
    exact ih _ hstep (fun op hop => hset op (List.mem_cons_of_mem _ hop))

/-- C3. Cache TTL law with the clock explicit: after `cache.set(k, v, T)` at time `t0`
and any later calls on the cache that do not set `k`, a `cache.get(k)` at a time `t` up
to `t0 + T` (the clock not running backwards) returns `v` and leaves the map as it is,
and a `cache.get(k)` at a time `t` after `t0 + T` returns `null`, leaves no entry for `k`
and leaves the entry of every other key unchanged. -/
theorem cache_ttl_law (m : List (String × CacheEntry)) (k : String) (v : JVal)
    (T t0 t : Nat) (ops : List (Nat × CacheOp))
    (hset : ∀ op ∈ ops, op.2.setKey ≠ some k) :
    ((∀ op ∈ ops, op.1 ≤ t) → t ≤ t0 + T →
      cacheGet (runCacheOps (cacheSet m t0 k v T) ops) t k
        = (v, runCacheOps (cacheSet m t0 k v T) ops)) ∧
    (t0 + T < t →
      (cacheGet (runCacheOps (cacheSet m t0 k v T) ops) t k).1 = JVal.null ∧
      mapGet (cacheGet (runCacheOps (cacheSet m t0 k v T) ops) t k).2 k = none ∧
      ∀ k', k' ≠ k →
        mapGet (cacheGet (runCacheOps (cacheSet m t0 k v T) ops) t k).2 k'
          = mapGet (runCacheOps (cacheSet m t0 k v T) ops) k') := by
  have h0 : mapGet (cacheSet m t0 k v T) k = some { value := v, expiresAt := t0 + T } := by
    simp [cacheSet, mapGet_mapSet]
  refine ⟨fun htime hle => ?_, fun hlt => ?_⟩
  · have hk := runCacheOps_keeps_live k { value := v, expiresAt := t0 + T } t ops _ h0 hle
      hset htime
    exact cacheGet_live _ t k _ hk hle
  · have hk := runCacheOps_entry_or_absent k { value := v, expiresAt := t0 + T } ops _
      (Or.inl h0) hset
    refine ⟨?_, ?_, fun k' hk' => cacheGet_other _ t k k' (fun e => hk' e.symm)⟩
    · rcases hk with hk | hk
      · rw [cacheGet_expired _ t k _ hk hlt]
      · rw [cacheGet_absent _ t k hk]
    · rcases hk with hk | hk
      · rw [cacheGet_expired _ t k _ hk hlt]; simp [mapGet_mapDelete]
      · rw [cacheGet_absent _ t k hk]; exact hk

/-! ## The normalizer -/

theorem isLowerAlnum_not_space (c : Char) (hc : isLowerAlnum c = true) :
    isJsSpace c = false := by
  simp only [isLowerAlnum, Bool.or_eq_true, Bool.and_eq_true, decide_eq_true_eq] at hc
  simp only [isJsSpace, Bool.or_eq_false_iff, Bool.and_eq_false_iff, beq_eq_false_iff_ne,
    decide_eq_false_iff_not, ne_eq]
  omega

theorem isLowerAlnum_not_quote (c : Char) (hc : isLowerAlnum c = true) :
    isQuoteChar c = false := by
  simp only [isLowerAlnum, Bool.or_eq_true, Bool.and_eq_true, decide_eq_true_eq] at hc
  simp only [isQuoteChar, Bool.or_eq_false_iff, beq_eq_false_iff_ne, ne_eq]
  omega

theorem isLowerAlnum_ascii (c : Char) (hc : isLowerAlnum c = true) : c.toNat < 128 := by
  simp only [isLowerAlnum, Bool.or_eq_true, Bool.and_eq_true, decide_eq_true_eq] at hc
  omega

theorem asciiLower_of_isLowerAlnum (c : Char) (hc : isLowerAlnum c = true) :
    asciiLower c = c := by
  simp only [isLowerAlnum, Bool.or_eq_true, Bool.and_eq_true, decide_eq_true_eq] at hc
  have : ¬ (65 ≤ c.toNat ∧ c.toNat ≤ 90) := by omega
  simp [asciiLower, this]

theorem lowerChars_of_alnum (h : Host) (l : List Char) :
    ∀ before : List Char, (∀ c ∈ l, isLowerAlnum c = true) → lowerChars h before l = l := by
  induction l with
  | nil => intro _ _; rfl
  | cons c rest ih =>
    intro before hl
    have hc : isLowerAlnum c = true := hl c (List.mem_cons_self _ _)
    have hrest := ih (before ++ [c]) (fun d hd => hl d (List.mem_cons_of_mem _ hd))
    simp [lowerChars, isLowerAlnum_ascii c hc, asciiLower_of_isLowerAlnum c hc, hrest]

theorem removeQuotes_of_alnum (l : List Char) (hl : ∀ c ∈ l, isLowerAlnum c = true) :
    removeQuotes l = l := by
  unfold removeQuotes
  rw [List.filter_eq_self]
  intro c hc
  simp [isLowerAlnum_not_quote c (hl c hc)]

theorem collapseNonAlnum_of_alnum (l : List Char) :
    ∀ inRun : Bool, (∀ c ∈ l, isLowerAlnum c = true) → collapseNonAlnum inRun l = l := by
  induction l with
  | nil => intro _ _; rfl
  | cons c rest ih =>
    intro inRun hl
    have hc : isLowerAlnum c = true := hl c (List.mem_cons_self _ _)
    simp [collapseNonAlnum, hc, ih false (fun d hd => hl d (List.mem_cons_of_mem _ hd))]

theorem dropWhile_space_of_alnum (l : List Char) (hl : ∀ c ∈ l, isLowerAlnum c = true) :
    l.dropWhile isJsSpace = l := by
  cases l with
  | nil => rfl
  | cons c rest =>
    simp [List.dropWhile, isLowerAlnum_not_space c (hl c (List.mem_cons_self _ _))]

theorem trimChars_of_alnum (l : List Char) (hl : ∀ c ∈ l, isLowerAlnum c = true) :
    trimChars l = l := by
  unfold trimChars
  rw [dropWhile_space_of_alnum l hl,
    dropWhile_space_of_alnum l.reverse (fun c hc => hl c (List.mem_reverse.mp hc)),
    List.reverse_reverse]

theorem removeSpaces_of_alnum (l : List Char) (hl : ∀ c ∈ l, isLowerAlnum c = true) :
    removeSpaces l = l := by
  unfold removeSpaces
  rw [List.filter_eq_self]
  intro c hc
  simp [isLowerAlnum_not_space c (hl c hc)]

theorem mem_collapseNonAlnum (l : List Char) :
    ∀ (inRun : Bool) (c : Char), c ∈ collapseNonAlnum inRun l →
      isLowerAlnum c = true ∨ c = ' ' := by
  induction l with
  | nil => intro _ c hc; simp [collapseNonAlnum] at hc
  | cons d rest ih =>
    intro inRun c hc
    unfold collapseNonAlnum at hc
    by_cases hd : isLowerAlnum d = true
    · rw [if_pos hd] at hc
      rcases List.mem_cons.mp hc with h | h
      · exact Or.inl (h ▸ hd)
      · exact ih false c h
    · rw [if_neg hd] at hc
      cases inRun with
      | true => exact ih true c (by simpa using hc)
      | false =>
        have hc' : c ∈ ' ' :: collapseNonAlnum true rest := by simpa using hc
        rcases List.mem_cons.mp hc' with h | h
        · exact Or.inr h
        · exact ih true c h

theorem mem_trimChars (l : List Char) (c : Char) (hc : c ∈ trimChars l) : c ∈ l := by
  unfold trimChars at hc
  have h1 := (List.dropWhile_sublist isJsSpace).subset (List.mem_reverse.mp hc)
  exact (List.dropWhile_sublist isJsSpace).subset (List.mem_reverse.mp h1)

/-- Every code point of a normalized text is in `[a-z0-9]`. -/
theorem normalizeLookupText_alnum (h : Host) (x : String) :
    ∀ c ∈ (normalizeLookupText h x).toList, isLowerAlnum c = true := by
  intro c hc
  have hc' : c ∈ removeSpaces (trimChars (collapseNonAlnum false (removeQuotes
      (lowerChars h [] x.toList)))) := hc
  unfold removeSpaces at hc'
  obtain ⟨hmem, hns⟩ := List.mem_filter.mp hc'
  rcases mem_collapseNonAlnum _ false c (mem_trimChars _ c hmem) with hal | hsp
  · exact hal
  · subst hsp
    simp [isJsSpace] at hns

/-- A text of code points in `[a-z0-9]` is its own normalization. -/
theorem normalizeLookupText_of_alnum (h : Host) (x : String)
    (hx : ∀ c ∈ x.toList, isLowerAlnum c = true) : normalizeLookupText h x = x := by
  unfold normalizeLookupText
  rw [lowerChars_of_alnum h x.toList [] hx, removeQuotes_of_alnum _ hx,
    collapseNonAlnum_of_alnum _ false hx, trimChars_of_alnum _ hx, removeSpaces_of_alnum _ hx]
  rfl

/-- C6. The normalizer is idempotent, whatever the host lower-cases code points above
U+007F to, and the empty text normalizes to the empty text. -/
theorem normalizeLookupText_idempotent (h : Host) (x : String) :
    normalizeLookupText h (normalizeLookupText h x) = normalizeLookupText h x ∧
    normalizeLookupText h "" = "" :=
  ⟨normalizeLookupText_of_alnum h _ (normalizeLookupText_alnum h x), rfl⟩

/-! ## The network and the world -/

theorem fetchJson_log (url : String) (w : World) :
    (fetchJson url w).2.log = w.log ++ [url] := by
  unfold fetchJson
  cases w.replies <;> rfl

theorem fetchJson_cache (url : String) (w : World) :
    (fetchJson url w).2.cache = w.cache := by
  unfold fetchJson
  cases w.replies <;> rfl

theorem fetchJson_cons (url : String) (w : World) (r : Reply) (rest : List Reply)
    (hr : w.replies = r :: rest) :
    fetchJson url w
      = (r.body, { w with now := w.now + r.elapsed, replies := rest, log := w.log ++ [url] }) := by
  unfold fetchJson
  rw [hr]

theorem World.cacheGet_falsy {w : World} {key : String}
    (hc : mapGet w.cache key = none ∨
      ∃ e, mapGet w.cache key = some e ∧ (e.expiresAt < w.now ∨ e.value.truthy = false)) :
    (w.cacheGet key).1.truthy = false := by
  unfold World.cacheGet
  rcases hc with hc | ⟨e, hc, hexp | hval⟩
  · rw [cacheGet_absent _ _ _ hc]; rfl
  · rw [cacheGet_expired _ _ _ e hc hexp]; rfl
  · by_cases hexp : e.expiresAt < w.now
    · rw [cacheGet_expired _ _ _ e hc hexp]; rfl
    · rw [cacheGet_live _ _ _ e hc (Nat.not_lt.mp hexp)]; exact hval

/-! ## Name Lookup -/

theorem getAppName_log (appid : String) (w : World) :
    (getAppName appid w).2.log = w.log ∨
    (getAppName appid w).2.log = w.log ++ [appdetailsUrl appid] := by
  unfold getAppName
  simp only []
  split_ifs with hhit
  · exact Or.inl rfl
  · right
    have hlog := fetchJson_log (appdetailsUrl appid) (w.cacheGet ("appname:" ++ appid)).2
    rcases hr : fetchJson (appdetailsUrl appid) (w.cacheGet ("appname:" ++ appid)).2
      with ⟨_ | json, w2⟩
    · rw [hr] at hlog; exact hlog
    · rw [hr] at hlog
      simp only []
      split_ifs
      · exact hlog
      · exact hlog

theorem getAppName_value (appid : String) (w : World) (v : JVal) (w1 : World)
    (hr : getAppName appid w = (some v, w1)) : v.truthy = true ∨ v = JVal.null := by
  unfold getAppName at hr
  simp only [] at hr
  split_ifs at hr with hhit
  · left
    have : (w.cacheGet ("appname:" ++ appid)).1 = v := by
      have := congrArg Prod.fst hr
      simpa using this
    rw [← this]; exact hhit
  · rcases hf : fetchJson (appdetailsUrl appid) (w.cacheGet ("appname:" ++ appid)).2
      with ⟨_ | json, w2⟩
    · rw [hf] at hr; simp at hr
    · rw [hf] at hr
      simp only [] at hr
      split_ifs at hr with hbad
      · right
        have := congrArg Prod.fst hr
        simpa using this.symm
      · left
        have hv : ((json.get appid).get "data").get "name" = v := by
          have := congrArg Prod.fst hr
          simpa using this
        rw [← hv]
        have hboth : ((json.get appid).get "success").truthy = true ∧
            (((json.get appid).get "data").get "name").truthy = true := by simpa using hbad
        exact hboth.2

theorem getAppName_returns (appid : String) (w : World) (r : Reply) (rest : List Reply)
    (json : JVal) (hw : w.replies = r :: rest) (hb : r.body = some json) :
    ∃ name w1, getAppName appid w = (some name, w1) := by
  unfold getAppName
  simp only []
  split_ifs with hhit
  · exact ⟨_, _, rfl⟩
  · have hrep : (w.cacheGet ("appname:" ++ appid)).2.replies = r :: rest := hw
    rw [fetchJson_cons _ _ r rest hrep, hb]
    simp only []
    split_ifs
    · exact ⟨_, _, rfl⟩
    · exact ⟨_, _, rfl⟩

/-- C5. For an input whose trimmed text is a non-empty string of decimal digits, the
resolver is one Name Lookup on the trimmed text and nothing else, whatever the alias
map holds: at most the detail query of that id is requested, no search query; when the
lookup does not throw (it does not when the network answers with a JSON body) the
resolver returns the trimmed text as the id, with error `null` when a name was found,
and with no name and the error `Could not fetch app name.` when none was. -/
theorem resolveApp_digits (h : Host) (aliases : List (String × String)) (inputText : String)
    (w : World) (hd : isAllDigits (jsTrim inputText) = true) :
    resolveAppWith h aliases inputText w
      = namedApp (jsTrim inputText) (getAppName (jsTrim inputText) w) ∧
    ((resolveAppWith h aliases inputText w).2.log = w.log ∨
      (resolveAppWith h aliases inputText w).2.log
        = w.log ++ [appdetailsUrl (jsTrim inputText)]) ∧
    (∀ name w1, getAppName (jsTrim inputText) w = (some name, w1) →
      ∃ r, resolveAppWith h aliases inputText w = (some r, w1) ∧
        r.appid = JVal.str (jsTrim inputText) ∧ r.name = name ∧
        ((name.truthy = true ∧ r.error = JVal.null) ∨
          (name = JVal.null ∧ r.error = JVal.str "Could not fetch app name."))) ∧
    (∀ r rest json, w.replies = r :: rest → r.body = some json →
      ∃ name w1, getAppName (jsTrim inputText) w = (some name, w1)) := by
  have hne : ¬ jsTrim inputText = "" := by
    intro he
    rw [he] at hd
    exact absurd hd (by decide)
  have heq : resolveAppWith h aliases inputText w
      = namedApp (jsTrim inputText) (getAppName (jsTrim inputText) w) := by
    unfold resolveAppWith
    simp only [hne, hd, if_true, if_false]
  refine ⟨heq, ?_, ?_, fun r rest json hw hb => getAppName_returns _ w r rest json hw hb⟩
  · rw [heq]
    have hlog := getAppName_log (jsTrim inputText) w
    rcases hr : getAppName (jsTrim inputText) w with ⟨_ | name, w1⟩
    · rw [hr] at hlog; exact hlog
    · rw [hr] at hlog; exact hlog
  · intro name w1 hr
    rw [heq, hr]
    refine ⟨_, rfl, rfl, rfl, ?_⟩
    rcases getAppName_value _ _ _ _ hr with ht | hn
    · left; exact ⟨ht, by simp [ht]⟩
    · right; subst hn; exact ⟨rfl, rfl⟩

/-- Witness of C5: the input ` 440 ` against an empty cache and a detail reply that
names the app. -/
theorem resolveApp_digits_witness :
    isAllDigits (jsTrim " 440 ") = true ∧
    resolveAppWith sampleHost [("440", "1")] " 440 " (freshWorld [detailReplyNamed])
      = namedApp (jsTrim " 440 ") (getAppName (jsTrim " 440 ") (freshWorld [detailReplyNamed])) ∧
    (resolveAppWith sampleHost [("440", "1")] " 440 " (freshWorld [detailReplyNamed])).1
      = some { appid := JVal.str "440", name := JVal.str "Team Fortress 2",
               error := JVal.null } ∧
    (resolveAppWith sampleHost [("440", "1")] " 440 " (freshWorld [detailReplyNamed])).2.log
      = ["https://store.steampowered.com/api/appdetails?appids=440&cc=us&l=en"] :=
  ⟨by decide,
   (resolveApp_digits sampleHost [("440", "1")] " 440 " (freshWorld [detailReplyNamed])
      (by decide)).1, rfl, rfl⟩

/-! ## Search Lookup -/

theorem storeSearchFirst_log (h : Host) (queryText : String) (w : World) :
    (storeSearchFirst h queryText w).2.log = w.log ∨
    (storeSearchFirst h queryText w).2.log = w.log ++ [storesearchUrl queryText] := by
  unfold storeSearchFirst
  simp only []
  split_ifs with hhit
  · exact Or.inl rfl
  · right
    have hlog := fetchJson_log (storesearchUrl queryText)
      (w.cacheGet ("storesearch:" ++ toLowerCase h (jsTrim queryText))).2
    rcases hr : fetchJson (storesearchUrl queryText)
      (w.cacheGet ("storesearch:" ++ toLowerCase h (jsTrim queryText))).2 with ⟨_ | json, w2⟩
    · rw [hr] at hlog; exact hlog
    · rw [hr] at hlog
      simp only []
      split_ifs <;> exact hlog

theorem storeSearchFirst_value (h : Host) (queryText : String) (w : World) (v : JVal)
    (w1 : World) (hr : storeSearchFirst h queryText w = (some v, w1)) :
    v.truthy = true ∨ v = JVal.null := by
  unfold storeSearchFirst at hr
  simp only [] at hr
  split_ifs at hr with hhit
  · left
    have hv := congrArg Prod.fst hr
    simp only [Option.some.injEq] at hv
    rw [← hv]; exact hhit
  · rcases hf : fetchJson (storesearchUrl queryText)
      (w.cacheGet ("storesearch:" ++ toLowerCase h (jsTrim queryText))).2 with ⟨_ | json, w2⟩
    · rw [hf] at hr; simp at hr
    · rw [hf] at hr
      simp only [] at hr
      split_ifs at hr with hbad
      all_goals
        have hv := congrArg Prod.fst hr
        simp only [Option.some.injEq] at hv
        rw [← hv]
        simp [JVal.truthy]

theorem storeSearchFirst_returns (h : Host) (queryText : String) (w : World) (r : Reply)
    (rest : List Reply) (json : JVal) (hw : w.replies = r :: rest) (hb : r.body = some json) :
    ∃ v w1, storeSearchFirst h queryText w = (some v, w1) := by
  unfold storeSearchFirst
  simp only []
  split_ifs with hhit
  · exact ⟨_, _, rfl⟩
  · have hrep : (w.cacheGet ("storesearch:" ++ toLowerCase h (jsTrim queryText))).2.replies
        = r :: rest := hw
    rw [fetchJson_cons _ _ r rest hrep, hb]
    simp only []
    split_ifs <;> exact ⟨_, _, rfl⟩

/-! ## The resolver -/

theorem mapGet_mem {α : Type} (m : List (String × α)) (k : String) (v : α)
    (hg : mapGet m k = some v) : (k, v) ∈ m := by
  induction m with
  | nil => simp [mapGet] at hg
  | cons kv rest ih =>
    obtain ⟨a, b⟩ := kv
    unfold mapGet at hg
    by_cases hak : a = k
    · rw [if_pos hak] at hg
      have hb : b = v := by simpa using hg
      rw [hak, hb]; exact List.mem_cons_self _ _
    · rw [if_neg hak] at hg
      exact List.mem_cons_of_mem _ (ih hg)

theorem builtInAliases_nonempty (k id : String) (hg : mapGet builtInAliases k = some id) :
    id ≠ "" := by
  have hall : ∀ kv ∈ builtInAliases, kv.2 ≠ "" := by decide
  exact hall (k, id) (mapGet_mem _ _ _ hg)

/-- C9. For an input whose trimmed text is not empty and not all digits and whose
normalization is a key of the built-in alias map, the resolver is one Name Lookup on the
id mapped to that key and nothing else: at most the detail query of that id is
requested, no search query; when the lookup does not throw (it does not when the
network answers with a JSON body) the resolver returns the mapped id, with the name
looked up. -/
theorem resolveApp_alias (h : Host) (inputText : String) (w : World) (id : String)
    (hne : jsTrim inputText ≠ "") (hnd : isAllDigits (jsTrim inputText) = false)
    (hal : mapGet builtInAliases (normalizeLookupText h (jsTrim inputText)) = some id) :
    resolveApp h inputText w = namedApp id (getAppName id w) ∧
    ((resolveApp h inputText w).2.log = w.log ∨
      (resolveApp h inputText w).2.log = w.log ++ [appdetailsUrl id]) ∧
    (∀ name w1, getAppName id w = (some name, w1) →
      ∃ r, resolveApp h inputText w = (some r, w1) ∧
        r.appid = JVal.str id ∧ r.name = name ∧
        ((name.truthy = true ∧ r.error = JVal.null) ∨
          (name = JVal.null ∧ r.error = JVal.str "Could not fetch app name."))) ∧
    (∀ r rest json, w.replies = r :: rest → r.body = some json →
      ∃ name w1, getAppName id w = (some name, w1)) := by
  have hid : ¬ id = "" := builtInAliases_nonempty _ _ hal
  have heq : resolveApp h inputText w = namedApp id (getAppName id w) := by
    unfold resolveApp resolveAppWith
    simp only [hne, hnd, hal, hid, if_false, Bool.false_eq_true]
  refine ⟨heq, ?_, ?_, fun r rest json hw hb => getAppName_returns _ w r rest json hw hb⟩
  · rw [heq]
    have hlog := getAppName_log id w
    rcases hr : getAppName id w with ⟨_ | name, w1⟩
    · rw [hr] at hlog; exact hlog
    · rw [hr] at hlog; exact hlog
  · intro name w1 hr
    rw [heq, hr]
    refine ⟨_, rfl, rfl, rfl, ?_⟩
    rcases getAppName_value _ _ _ _ hr with ht | hn
    · left; exact ⟨ht, by simp [ht]⟩
    · right; subst hn; exact ⟨rfl, rfl⟩

/-- Witness of C9: the input `TF2!!` normalizes to `tf2` and resolves to the id `440`. -/
theorem resolveApp_alias_witness :
    normalizeLookupText sampleHost (jsTrim "TF2!!") = "tf2" ∧
    (resolveApp sampleHost "TF2!!" (freshWorld [detailReplyNamed])
      = namedApp "440" (getAppName "440" (freshWorld [detailReplyNamed]))) ∧
    (resolveApp sampleHost "TF2!!" (freshWorld [detailReplyNamed])).1
      = some { appid := JVal.str "440", name := JVal.str "Team Fortress 2",
               error := JVal.null } ∧
    (resolveApp sampleHost "TF2!!" (freshWorld [detailReplyNamed])).2.log
      = ["https://store.steampowered.com/api/appdetails?appids=440&cc=us&l=en"] :=
  ⟨by decide,
   (resolveApp_alias sampleHost "TF2!!" (freshWorld [detailReplyNamed]) "440"
      (by decide) (by decide) (by decide)).1, rfl, rfl⟩

/-- C10. For an input whose trimmed text `t` is not empty, not all digits and whose
normalization is not an alias key, the resolver is one Search Lookup on `t` and nothing
else: at most the search query for `t` is requested, no detail query. When the search
yields `null` the resolver returns id `null`, name `null` and the error
`No results found for "t".`; when it yields a result whose id has a string form, the
resolver returns that string as the id and the result's name, with error `null` (and
throws when `String` throws on the id). The search yields `null` or a result whenever
the network answers with a JSON body. -/
theorem resolveApp_search (h : Host) (inputText : String) (w : World)
    (hne : jsTrim inputText ≠ "") (hnd : isAllDigits (jsTrim inputText) = false)
    (hal : mapGet builtInAliases (normalizeLookupText h (jsTrim inputText)) = none) :
    ((resolveApp h inputText w).2.log = w.log ∨
      (resolveApp h inputText w).2.log = w.log ++ [storesearchUrl (jsTrim inputText)]) ∧
    (∀ w1, storeSearchFirst h (jsTrim inputText) w = (some JVal.null, w1) →
      resolveApp h inputText w
        = (some { appid := JVal.null, name := JVal.null,
                  error := JVal.str ("No results found for " ++ String.singleton (Char.ofNat 34)
                    ++ jsTrim inputText ++ String.singleton (Char.ofNat 34) ++ ".") }, w1)) ∧
    (∀ result w1 appid, storeSearchFirst h (jsTrim inputText) w = (some result, w1) →
      result ≠ JVal.null → jsString h (result.get "appid") = some appid →
      resolveApp h inputText w
        = (some { appid := JVal.str appid, name := result.get "name",
                  error := JVal.null }, w1)) ∧
    (∀ result w1, storeSearchFirst h (jsTrim inputText) w = (some result, w1) →
      result ≠ JVal.null → jsString h (result.get "appid") = none →
      resolveApp h inputText w = (none, w1)) ∧
    (∀ r rest json, w.replies = r :: rest → r.body = some json →
      ∃ v w1, storeSearchFirst h (jsTrim inputText) w = (some v, w1) ∧
        (v = JVal.null ∨ v.truthy = true)) := by
  have heq : resolveApp h inputText w = resolveSearch h (jsTrim inputText) w := by
    unfold resolveApp resolveAppWith
    simp only [hne, hnd, hal, if_false, Bool.false_eq_true]
  refine ⟨?_, ?_, ?_, ?_, ?_⟩
  · rw [heq]
    unfold resolveSearch
    have hlog := storeSearchFirst_log h (jsTrim inputText) w
    rcases hr : storeSearchFirst h (jsTrim inputText) w with ⟨_ | v, w1⟩
    · rw [hr] at hlog; exact hlog
    · rw [hr] at hlog
      simp only []
      split_ifs
      · exact hlog
      · cases jsString h (v.get "appid") <;> exact hlog
  · intro w1 hr
    rw [heq]
    unfold resolveSearch
    rw [hr]
    rfl
  · intro result w1 appid hr hnn hs
    rw [heq]
    unfold resolveSearch
    rw [hr]
    have ht : result.truthy = true := by
      rcases storeSearchFirst_value _ _ _ _ _ hr with ht | hn
      · exact ht
      · exact absurd hn hnn
    simp only [ht, hs, Bool.not_true, Bool.false_eq_true, if_false]
  · intro result w1 hr hnn hs
    rw [heq]
    unfold resolveSearch
    rw [hr]
    have ht : result.truthy = true := by
      rcases storeSearchFirst_value _ _ _ _ _ hr with ht | hn
      · exact ht
      · exact absurd hn hnn
    simp only [ht, hs, Bool.not_true, Bool.false_eq_true, if_false]
  · intro r rest json hw hb
    obtain ⟨v, w1, hr⟩ := storeSearchFirst_returns h (jsTrim inputText) w r rest json hw hb
    exact ⟨v, w1, hr, (storeSearchFirst_value _ _ _ _ _ hr).symm⟩

/-- Witness of C10: the input `some unknown game xyz` with an empty list of search
results, and the input `portal` with a search result of id 620. -/
theorem resolveApp_search_witness :
    (resolveApp sampleHost "some unknown game xyz" (freshWorld [searchReplyEmpty])).1
      = some { appid := JVal.null, name := JVal.null,
               error := JVal.str ("No results found for " ++ String.singleton (Char.ofNat 34)
                 ++ "some unknown game xyz" ++ String.singleton (Char.ofNat 34) ++ ".") } ∧
    (resolveApp sampleHost "some unknown game xyz" (freshWorld [searchReplyEmpty])).2.log
      = ["https://store.steampowered.com/api/storesearch?term=some%20unknown%20game%20xyz&l=en&cc=us"] ∧
    (resolveApp sampleHost "portal" (freshWorld [searchReplyNumeric])).1
      = some { appid := JVal.str "620", name := JVal.str "Portal 2", error := JVal.null } ∧
    (resolveApp sampleHost "portal" (freshWorld [searchReplyNumeric])).2.log
      = ["https://store.steampowered.com/api/storesearch?term=portal&l=en&cc=us"] :=
  ⟨congrArg Prod.fst
    ((resolveApp_search sampleHost "some unknown game xyz" (freshWorld [searchReplyEmpty])
      (by decide) (by decide) (by decide)).2.1
      (storeSearchFirst sampleHost "some unknown game xyz" (freshWorld [searchReplyEmpty])).2
      rfl), rfl,
   congrArg Prod.fst
    ((resolveApp_search sampleHost "portal" (freshWorld [searchReplyNumeric])
      (by decide) (by decide) (by decide)).2.2.1
      (JVal.obj [("appid", JVal.num (JNum.fin 620)), ("name", JVal.str "Portal 2")])
      (storeSearchFirst sampleHost "portal" (freshWorld [searchReplyNumeric])).2
      "620" rfl (fun e => JVal.noConfusion e) rfl), rfl⟩

theorem noResultsMessage_ne (t : String) :
    noResultsMessage t ≠ "Could not fetch app name." := by
  intro he
  have hd := congrArg String.data he
  simp [noResultsMessage] at hd

theorem namedApp_shape (id : String) (res : Option JVal × World)
    (hres : ∀ v w1, res = (some v, w1) → v.truthy = true ∨ v = JVal.null)
    (r : ResolvedApp) (w1 : World) (hr : namedApp id res = (some r, w1)) :
    r.appid = JVal.str id ∧
      ((r.error = JVal.null ∧ r.name.truthy = true) ∨
       (r.error = JVal.str "Could not fetch app name." ∧ r.name = JVal.null)) := by
  obtain ⟨_ | v, w2⟩ := res
  · simp [namedApp] at hr
  · simp only [namedApp, Prod.mk.injEq, Option.some.injEq] at hr
    obtain ⟨hr, -⟩ := hr
    subst hr
    rcases hres v w2 rfl with ht | hn
    · exact ⟨rfl, Or.inl ⟨by simp [ht], ht⟩⟩
    · subst hn
      exact ⟨rfl, Or.inr ⟨rfl, rfl⟩⟩

theorem resolveSearch_shape (h : Host) (t : String) (w : World) (r : ResolvedApp)
    (w1 : World) (hr : resolveSearch h t w = (some r, w1)) :
    (r.appid = JVal.null ∧ r.name = JVal.null ∧ r.error = JVal.str (noResultsMessage t)) ∨
    (∃ s, r.appid = JVal.str s ∧ r.error = JVal.null) := by
  unfold resolveSearch at hr
  rcases hs : storeSearchFirst h t w with ⟨_ | v, w2⟩
  · rw [hs] at hr; simp at hr
  · rw [hs] at hr
    simp only [] at hr
    split_ifs at hr with hf
    · simp only [Prod.mk.injEq, Option.some.injEq] at hr
      obtain ⟨hr, -⟩ := hr
      subst hr
      exact Or.inl ⟨rfl, rfl, rfl⟩
    · cases hj : jsString h (v.get "appid") with
      | none => rw [hj] at hr; simp at hr
      | some s =>
        rw [hj] at hr
        simp only [Prod.mk.injEq, Option.some.injEq] at hr
        obtain ⟨hr, -⟩ := hr
        subst hr
        exact Or.inr ⟨s, rfl, rfl⟩

/-- The shapes of the object `resolveApp` returns. -/
theorem resolveApp_shape (h : Host) (inputText : String) (w : World) (r : ResolvedApp)
    (w1 : World) (hr : resolveApp h inputText w = (some r, w1)) :
    (r.appid = JVal.null ∧ r.name = JVal.null ∧
      (r.error = JVal.str "No app specified." ∨
       r.error = JVal.str (noResultsMessage (jsTrim inputText)))) ∨
    (∃ s, r.appid = JVal.str s ∧ r.error = JVal.null) ∨
    (∃ s, r.appid = JVal.str s ∧ r.name = JVal.null ∧
      r.error = JVal.str "Could not fetch app name.") := by
  unfold resolveApp resolveAppWith at hr
  simp only [] at hr
  split_ifs at hr with hempty hdig
  · simp only [Prod.mk.injEq, Option.some.injEq] at hr
    obtain ⟨hr, -⟩ := hr
    subst hr
    exact Or.inl ⟨rfl, rfl, Or.inl rfl⟩
  · have := namedApp_shape (jsTrim inputText) _
      (fun v w2 hv => getAppName_value _ _ _ _ hv) r w1 hr
    rcases this with ⟨ha, ⟨he, -⟩ | ⟨he, hn⟩⟩
    · exact Or.inr (Or.inl ⟨_, ha, he⟩)
    · exact Or.inr (Or.inr ⟨_, ha, hn, he⟩)
  · cases hal : mapGet builtInAliases (normalizeLookupText h (jsTrim inputText)) with
    | none =>
      rw [hal] at hr
      rcases resolveSearch_shape h _ w r w1 hr with ⟨ha, hn, he⟩ | hs
      · exact Or.inl ⟨ha, hn, Or.inr he⟩
      · exact Or.inr (Or.inl hs)
    | some id =>
      rw [hal] at hr
      have hid : ¬ id = "" := builtInAliases_nonempty _ _ hal
      simp only [hid, if_false] at hr
      have := namedApp_shape id _
        (fun v w2 hv => getAppName_value _ _ _ _ hv) r w1 hr
      rcases this with ⟨ha, ⟨he, -⟩ | ⟨he, hn⟩⟩
      · exact Or.inr (Or.inl ⟨_, ha, he⟩)
      · exact Or.inr (Or.inr ⟨_, ha, hn, he⟩)

/-- C2, as stated, fails: for the input `440` and a detail reply without success the
object returned has both a non-null id and a non-null error. -/
theorem resolveApp_id_and_error :
    ∃ r w1, resolveApp sampleHost "440" (freshWorld [detailReplyFailed]) = (some r, w1) ∧
      r.appid ≠ JVal.null ∧ r.error ≠ JVal.null :=
  ⟨{ appid := JVal.str "440", name := JVal.null,
     error := JVal.str "Could not fetch app name." }, _, rfl,
   fun e => JVal.noConfusion e, fun e => JVal.noConfusion e⟩

/-- C2, amended. The object returned by the resolver never has both its id and its
error `null`: a `null` id comes with an error, a `null` error with an id. Both are
non-null exactly when the error is `Could not fetch app name.`, the partial success of
the digit and alias branches, and the name is `null` then. -/
theorem resolveApp_id_or_error (h : Host) (inputText : String) (w : World)
    (r : ResolvedApp) (w1 : World) (hr : resolveApp h inputText w = (some r, w1)) :
    (r.appid ≠ JVal.null ∨ r.error ≠ JVal.null) ∧
    ((r.appid ≠ JVal.null ∧ r.error ≠ JVal.null) ↔
      r.error = JVal.str "Could not fetch app name.") ∧
    (r.error = JVal.str "Could not fetch app name." → r.name = JVal.null) := by
  rcases resolveApp_shape h inputText w r w1 hr with
    ⟨ha, -, he | he⟩ | ⟨s, ha, he⟩ | ⟨s, ha, hn, he⟩
  · refine ⟨Or.inr (by rw [he]; exact fun e => JVal.noConfusion e), ?_, ?_⟩
    · constructor
      · intro hb; exact absurd ha hb.1
      · intro hc; rw [he] at hc; simp at hc
    · intro hc; rw [he] at hc; simp at hc
  · refine ⟨Or.inr (by rw [he]; exact fun e => JVal.noConfusion e), ?_, ?_⟩
    · constructor
      · intro hb; exact absurd ha hb.1
      · intro hc
        rw [he] at hc
        exact absurd (JVal.str.inj hc) (noResultsMessage_ne _)
    · intro hc
      rw [he] at hc
      exact absurd (JVal.str.inj hc) (noResultsMessage_ne _)
  · refine ⟨Or.inl (by rw [ha]; exact fun e => JVal.noConfusion e), ?_, ?_⟩
    · constructor
      · intro hb; exact absurd he hb.2
      · intro hc; rw [he] at hc; simp at hc
    · intro hc; rw [he] at hc; simp at hc
  · refine ⟨Or.inl (by rw [ha]; exact fun e => JVal.noConfusion e), ?_, fun _ => hn⟩
    constructor
    · intro _; exact he
    · intro _
      exact ⟨by rw [ha]; exact fun e => JVal.noConfusion e,
        by rw [he]; exact fun e => JVal.noConfusion e⟩

/-- Witness of C2, amended: the input `440` with a detail reply without success. -/
theorem resolveApp_id_or_error_witness :
    (JVal.str "440" ≠ JVal.null ∨ JVal.str "Could not fetch app name." ≠ JVal.null) ∧
    ((JVal.str "440" ≠ JVal.null ∧ JVal.str "Could not fetch app name." ≠ JVal.null) ↔
      JVal.str "Could not fetch app name." = JVal.str "Could not fetch app name.") ∧
    (JVal.str "Could not fetch app name." = JVal.str "Could not fetch app name." →
      JVal.null = JVal.null) :=
  resolveApp_id_or_error sampleHost "440" (freshWorld [detailReplyFailed])
    { appid := JVal.str "440", name := JVal.null,
      error := JVal.str "Could not fetch app name." } _ rfl

/-! ## Negative results and the cache -/

theorem World.cacheGet_miss (w : World) (key : String)
    (hmiss : mapGet w.cache key = none ∨
      ∃ e, mapGet w.cache key = some e ∧ e.expiresAt < w.now) :
    ∃ c, w.cacheGet key = (JVal.null, { w with cache := c }) ∧ mapGet c key = none := by
  unfold World.cacheGet
  rcases hmiss with hc | ⟨e, hc, hexp⟩
  · exact ⟨w.cache, by rw [cacheGet_absent _ _ _ hc], hc⟩
  · exact ⟨mapDelete w.cache key, by rw [cacheGet_expired _ _ _ e hc hexp],
      by simp [mapGet_mapDelete]⟩

theorem truthy_null : JVal.null.truthy = false := rfl

theorem getAppName_miss_log (appid : String) (w : World)
    (hf : (w.cacheGet ("appname:" ++ appid)).1.truthy = false) :
    (getAppName appid w).2.log = w.log ++ [appdetailsUrl appid] := by
  unfold getAppName
  simp only [hf, Bool.false_eq_true, if_false]
  have hlog := fetchJson_log (appdetailsUrl appid) (w.cacheGet ("appname:" ++ appid)).2
  rcases hr : fetchJson (appdetailsUrl appid) (w.cacheGet ("appname:" ++ appid)).2
    with ⟨_ | json, w2⟩
  · rw [hr] at hlog; exact hlog
  · rw [hr] at hlog
    simp only []
    split_ifs <;> exact hlog

/-- C4. Name Lookup never caches a failure. With no live entry under the key
`appname:<id>` and a detail reply with a JSON body: when the entry of the id in the
reply has a falsy success flag or a falsy (absent, empty) name, `getAppName` returns
`null`, no entry for the key exists afterwards, and the next `getAppName` call for the
id, whenever it is made, requests the detail query again; when the flag and the name
are truthy, `getAppName` returns the name and stores it under the key with expiry the
time of the store plus 24 hours. -/
theorem getAppName_failure_not_cached (appid : String) (w : World) (r : Reply)
    (rest : List Reply) (json : JVal)
    (hmiss : mapGet w.cache ("appname:" ++ appid) = none ∨
      ∃ e, mapGet w.cache ("appname:" ++ appid) = some e ∧ e.expiresAt < w.now)
    (hw : w.replies = r :: rest) (hb : r.body = some json) :
    ((((json.get appid).get "success").truthy = false ∨
        (((json.get appid).get "data").get "name").truthy = false) →
      (getAppName appid w).1 = some JVal.null ∧
      mapGet (getAppName appid w).2.cache ("appname:" ++ appid) = none ∧
      (getAppName appid w).2.log = w.log ++ [appdetailsUrl appid] ∧
      ∀ ms, (getAppName appid ((getAppName appid w).2.advance ms)).2.log
        = w.log ++ [appdetailsUrl appid] ++ [appdetailsUrl appid]) ∧
    ((((json.get appid).get "success").truthy = true ∧
        (((json.get appid).get "data").get "name").truthy = true) →
      (getAppName appid w).1 = some (((json.get appid).get "data").get "name") ∧
      mapGet (getAppName appid w).2.cache ("appname:" ++ appid)
        = some { value := ((json.get appid).get "data").get "name",
                 expiresAt := w.now + r.elapsed + 24 * 60 * 60 * 1000 } ∧
      (getAppName appid w).2.log = w.log ++ [appdetailsUrl appid]) := by
  obtain ⟨c, hget, hc⟩ := World.cacheGet_miss w _ hmiss
  have hrep : ({ w with cache := c } : World).replies = r :: rest := hw
  have h1 : (w.cacheGet ("appname:" ++ appid)).1 = JVal.null := by rw [hget]
  have h2 : (w.cacheGet ("appname:" ++ appid)).2 = { w with cache := c } := by rw [hget]
  constructor
  · intro hbad
    have hcond : (!((json.get appid).get "success").truthy ||
        !(((json.get appid).get "data").get "name").truthy) = true := by
      rcases hbad with hs | hn
      · simp [hs]
      · simp [hn]
    have hres : getAppName appid w = (some JVal.null,
        { w with cache := c, now := w.now + r.elapsed, replies := rest,
                 log := w.log ++ [appdetailsUrl appid] }) := by
      unfold getAppName
      simp only [h1, h2, truthy_null, Bool.false_eq_true, if_false]
      rw [fetchJson_cons _ _ r rest hrep, hb]
      simp only [hcond, if_true]
    rw [hres]
    refine ⟨rfl, hc, rfl, fun ms => ?_⟩
    rw [getAppName_miss_log]
    · rfl
    · exact World.cacheGet_falsy (Or.inl hc)
  · intro hgood
    have hcond : (!((json.get appid).get "success").truthy ||
        !(((json.get appid).get "data").get "name").truthy) = false := by
      simp [hgood.1, hgood.2]
    have hres : getAppName appid w = (some (((json.get appid).get "data").get "name"),
        World.cacheSet
          { w with cache := c, now := w.now + r.elapsed, replies := rest,
                   log := w.log ++ [appdetailsUrl appid] }
          ("appname:" ++ appid) (((json.get appid).get "data").get "name")
          (24 * 60 * 60 * 1000)) := by
      unfold getAppName
      simp only [h1, h2, truthy_null, Bool.false_eq_true, if_false]
      rw [fetchJson_cons _ _ r rest hrep, hb]
      simp only [hcond, Bool.false_eq_true, if_false]
    rw [hres]
    refine ⟨rfl, ?_, rfl⟩
    simp [World.cacheSet, cacheSet, mapGet_mapSet]

/-- Witness of C4: app 440 against an empty cache and a detail reply without success. -/
theorem getAppName_failure_not_cached_witness :
    (getAppName "440" (freshWorld [detailReplyFailed, detailReplyNamed])).1 = some JVal.null ∧
    mapGet (getAppName "440" (freshWorld [detailReplyFailed, detailReplyNamed])).2.cache
      ("appname:" ++ "440") = none ∧
    (getAppName "440" (freshWorld [detailReplyFailed, detailReplyNamed])).2.log
      = [] ++ [appdetailsUrl "440"] ∧
    ∀ ms, (getAppName "440"
        ((getAppName "440" (freshWorld [detailReplyFailed, detailReplyNamed])).2.advance ms)).2.log
      = [] ++ [appdetailsUrl "440"] ++ [appdetailsUrl "440"] :=
  (getAppName_failure_not_cached "440" (freshWorld [detailReplyFailed, detailReplyNamed])
    detailReplyFailed [detailReplyNamed]
    (JVal.obj [("440", JVal.obj [("success", JVal.bool false)])])
    (Or.inl rfl) rfl rfl).1 (Or.inl rfl)

theorem storeSearchFirst_miss_log (h : Host) (queryText : String) (w : World)
    (hf : (w.cacheGet ("storesearch:" ++ toLowerCase h (jsTrim queryText))).1.truthy = false) :
    (storeSearchFirst h queryText w).2.log = w.log ++ [storesearchUrl queryText] := by
  unfold storeSearchFirst
  simp only [hf, Bool.false_eq_true, if_false]
  have hlog := fetchJson_log (storesearchUrl queryText)
    (w.cacheGet ("storesearch:" ++ toLowerCase h (jsTrim queryText))).2
  rcases hr : fetchJson (storesearchUrl queryText)
    (w.cacheGet ("storesearch:" ++ toLowerCase h (jsTrim queryText))).2 with ⟨_ | json, w2⟩
  · rw [hr] at hlog; exact hlog
  · rw [hr] at hlog
    simp only []
    split_ifs <;> exact hlog

theorem getReviewSummary_miss_log (h : Host) (appid : String) (w : World)
    (hf : (w.cacheGet ("reviews:" ++ appid)).1.truthy = false) :
    (getReviewSummary h appid w).2.log = w.log ++ [appreviewsUrl appid] := by
  unfold getReviewSummary
  simp only [hf, Bool.false_eq_true, if_false]
  have hlog := fetchJson_log (appreviewsUrl appid) (w.cacheGet ("reviews:" ++ appid)).2
  rcases hr : fetchJson (appreviewsUrl appid) (w.cacheGet ("reviews:" ++ appid)).2
    with ⟨_ | json, w2⟩
  · rw [hr] at hlog; exact hlog
  · rw [hr] at hlog
    simp only []
    split_ifs
    · exact hlog
    · cases jsString h ((json.get "query_summary").get "review_score_desc") <;> exact hlog

/-- After a Search Lookup that returned `null`, the next Search Lookup for the same
text requests the search query again, whenever it is made: the `null` stored by
`cache.set` reads as a miss in `if (cached)`. -/
theorem storeSearchFirst_null_refetched (h : Host) (queryText : String) (w w1 : World)
    (hr : storeSearchFirst h queryText w = (some JVal.null, w1)) (ms : Nat) :
    (storeSearchFirst h queryText (w1.advance ms)).2.log
      = w1.log ++ [storesearchUrl queryText] := by
  apply storeSearchFirst_miss_log
  apply World.cacheGet_falsy
  unfold storeSearchFirst at hr
  simp only [] at hr
  split_ifs at hr with hhit
  · have hv := congrArg Prod.fst hr
    simp only [Option.some.injEq] at hv
    rw [hv] at hhit
    exact absurd hhit (by simp [truthy_null])
  · rcases hf : fetchJson (storesearchUrl queryText)
      (w.cacheGet ("storesearch:" ++ toLowerCase h (jsTrim queryText))).2 with ⟨_ | json, w2⟩
    · rw [hf] at hr; simp at hr
    · rw [hf] at hr
      simp only [] at hr
      split_ifs at hr with hbad
      · have hw := congrArg Prod.snd hr
        simp only [] at hw
        rw [← hw]
        right
        refine ⟨{ value := JVal.null, expiresAt := w2.now + 10 * 60 * 1000 }, ?_, Or.inr rfl⟩
        simp [World.advance, World.cacheSet, cacheSet, mapGet_mapSet]
      · have hv := congrArg Prod.fst hr
        simp at hv

/-- After a Summary Lookup that returned `null`, the next Summary Lookup for the same id
requests the aggregate query again, whenever it is made. -/
theorem getReviewSummary_null_refetched (h : Host) (appid : String) (w w1 : World)
    (hr : getReviewSummary h appid w = (some JVal.null, w1)) (ms : Nat) :
    (getReviewSummary h appid (w1.advance ms)).2.log = w1.log ++ [appreviewsUrl appid] := by
  apply getReviewSummary_miss_log
  apply World.cacheGet_falsy
  unfold getReviewSummary at hr
  simp only [] at hr
  split_ifs at hr with hhit
  · have hv := congrArg Prod.fst hr
    simp only [Option.some.injEq] at hv
    rw [hv] at hhit
    exact absurd hhit (by simp [truthy_null])
  · rcases hf : fetchJson (appreviewsUrl appid) (w.cacheGet ("reviews:" ++ appid)).2
      with ⟨_ | json, w2⟩
    · rw [hf] at hr; simp at hr
    · rw [hf] at hr
      simp only [] at hr
      split_ifs at hr with hbad
      · have hw := congrArg Prod.snd hr
        simp only [] at hw
        rw [← hw]
        right
        refine ⟨{ value := JVal.null, expiresAt := w2.now + 5 * 60 * 1000 }, ?_, Or.inr rfl⟩
        simp [World.advance, World.cacheSet, cacheSet, mapGet_mapSet]
      · cases hj : jsString h ((json.get "query_summary").get "review_score_desc") with
        | none => rw [hj] at hr; simp at hr
        | some label =>
          rw [hj] at hr
          have hv := congrArg Prod.fst hr
          simp at hv

/-- C1 on the code: a search without result at time 1000, answered at 1080, stores
`null` for ten minutes; the same search one second later requests the search query a
second time and returns the item the store now reports. A summary lookup that returned
`null` likewise requests the aggregate query again one second later. -/
theorem negative_result_refetched :
    (storeSearchFirst sampleHost "zz top"
        (freshWorld [searchReplyEmpty, searchReplyOne])).1 = some JVal.null ∧
    mapGet (storeSearchFirst sampleHost "zz top"
        (freshWorld [searchReplyEmpty, searchReplyOne])).2.cache "storesearch:zz top"
      = some { value := JVal.null, expiresAt := 1080 + 600000 } ∧
    (storeSearchFirst sampleHost "zz top"
        ((storeSearchFirst sampleHost "zz top"
          (freshWorld [searchReplyEmpty, searchReplyOne])).2.advance 1000)).1
      = some (JVal.obj [("appid", JVal.str "620"), ("name", JVal.str "Portal 2")]) ∧
    (storeSearchFirst sampleHost "zz top"
        ((storeSearchFirst sampleHost "zz top"
          (freshWorld [searchReplyEmpty, searchReplyOne])).2.advance 1000)).2.log
      = [storesearchUrl "zz top", storesearchUrl "zz top"] ∧
    (getReviewSummary sampleHost "440"
        (freshWorld [reviewReplyEmpty, reviewReplyEmpty])).1 = some JVal.null ∧
    (getReviewSummary sampleHost "440"
        ((getReviewSummary sampleHost "440"
          (freshWorld [reviewReplyEmpty, reviewReplyEmpty])).2.advance 1000)).2.log
      = [appreviewsUrl "440", appreviewsUrl "440"] :=
  ⟨rfl, rfl, rfl, rfl, rfl, rfl⟩

/-- Witness of C3: a name stored at time 1000 for 500 ms, a read of it at 1200 and a
write of another key at 1300 in between; read again at 1500 and at 1501. -/
theorem cache_ttl_law_witness :
    (cacheGet (runCacheOps (cacheSet [] 1000 "appname:440" (JVal.str "Team Fortress 2") 500)
        [(1200, CacheOp.get "appname:440"),
         (1300, CacheOp.set "players:440" (JVal.num (JNum.fin 7)) 30000)]) 1500 "appname:440"
      = (JVal.str "Team Fortress 2",
         runCacheOps (cacheSet [] 1000 "appname:440" (JVal.str "Team Fortress 2") 500)
          [(1200, CacheOp.get "appname:440"),
           (1300, CacheOp.set "players:440" (JVal.num (JNum.fin 7)) 30000)])) ∧
    (cacheGet (runCacheOps (cacheSet [] 1000 "appname:440" (JVal.str "Team Fortress 2") 500)
        [(1200, CacheOp.get "appname:440"),
         (1300, CacheOp.set "players:440" (JVal.num (JNum.fin 7)) 30000)]) 1501
        "appname:440").1 = JVal.null ∧
    mapGet (cacheGet (runCacheOps
        (cacheSet [] 1000 "appname:440" (JVal.str "Team Fortress 2") 500)
        [(1200, CacheOp.get "appname:440"),
         (1300, CacheOp.set "players:440" (JVal.num (JNum.fin 7)) 30000)]) 1501
        "appname:440").2 "appname:440" = none :=
  ⟨(cache_ttl_law [] "appname:440" (JVal.str "Team Fortress 2") 500 1000 1500
      [(1200, CacheOp.get "appname:440"),
       (1300, CacheOp.set "players:440" (JVal.num (JNum.fin 7)) 30000)]
      (by decide)).1 (by decide) (by decide),
   ((cache_ttl_law [] "appname:440" (JVal.str "Team Fortress 2") 500 1000 1501
      [(1200, CacheOp.get "appname:440"),
       (1300, CacheOp.set "players:440" (JVal.num (JNum.fin 7)) 30000)]
      (by decide)).2 (by decide)).1,
   ((cache_ttl_law [] "appname:440" (JVal.str "Team Fortress 2") 500 1000 1501
      [(1200, CacheOp.get "appname:440"),
       (1300, CacheOp.set "players:440" (JVal.num (JNum.fin 7)) 30000)]
      (by decide)).2 (by decide)).2.1⟩

/-! ## Binary64 rounding -/

theorem two_zpow_pos (e : ℤ) : (0 : ℚ) < (2 : ℚ) ^ e := zpow_pos (by norm_num) e

theorem ulp_pos (a : ℚ) : 0 < ulp a := two_zpow_pos _

theorem binade_ge (a : ℚ) : -1022 ≤ binade a := le_max_right _ _

theorem log_le_binade (a : ℚ) : Int.log 2 a ≤ binade a := le_max_left _ _

theorem binade_mono {a b : ℚ} (ha : 0 < a) (hab : a ≤ b) : binade a ≤ binade b :=
  max_le_max (Int.log_mono_right ha hab) le_rfl

theorem lt_zpow_binade_succ (a : ℚ) : a < (2 : ℚ) ^ (binade a + 1) := by
  have h1 : a < ((2 : ℕ) : ℚ) ^ (Int.log 2 a + 1) := Int.lt_zpow_succ_log_self (by norm_num) a
  have h2 : ((2 : ℕ) : ℚ) ^ (Int.log 2 a + 1) ≤ (2 : ℚ) ^ (binade a + 1) := by
    have : Int.log 2 a + 1 ≤ binade a + 1 := by linarith [log_le_binade a]
    exact_mod_cast zpow_le_zpow_right₀ (by norm_num : (1 : ℚ) ≤ 2) this
  exact lt_of_lt_of_le h1 h2

theorem zpow_binade_le {a : ℚ} (ha : 0 < a) (hb : -1022 < binade a) :
    (2 : ℚ) ^ binade a ≤ a := by
  have hlog : binade a = Int.log 2 a := by
    unfold binade at hb ⊢
    rcases le_total (Int.log 2 a) (-1022) with h | h
    · rw [max_eq_right h] at hb; exact absurd hb (lt_irrefl _)
    · exact max_eq_left h
  rw [hlog]
  have := Int.zpow_log_le_self (R := ℚ) (b := 2) (by norm_num) ha
  exact_mod_cast this

theorem roundHalfEven_cases (x : ℚ) :
    roundHalfEven x = ⌊x⌋ ∨ roundHalfEven x = ⌊x⌋ + 1 := by
  unfold roundHalfEven
  split_ifs <;> simp

theorem roundHalfEven_le_of_le (x : ℚ) (N : ℤ) (h : x ≤ N) : roundHalfEven x ≤ N := by
  have hfl : ⌊x⌋ ≤ N := Int.floor_le_iff.mpr (lt_of_le_of_lt h (by exact_mod_cast lt_add_one (N : ℚ)))
  rcases lt_or_eq_of_le hfl with hlt | heq
  · rcases roundHalfEven_cases x with hc | hc <;> rw [hc] <;> omega
  · have hx : x = N := le_antisymm h (by rw [← heq]; exact Int.floor_le x)
    have : x - ⌊x⌋ < 1 / 2 := by rw [heq, hx]; norm_num
    unfold roundHalfEven
    rw [if_pos this, heq]

theorem le_roundHalfEven_of_le (x : ℚ) (N : ℤ) (h : (N : ℚ) ≤ x) : N ≤ roundHalfEven x := by
  have hfl : N ≤ ⌊x⌋ := Int.le_floor.mpr h
  rcases roundHalfEven_cases x with hc | hc <;> rw [hc] <;> omega

theorem roundHalfEven_intCast (N : ℤ) : roundHalfEven (N : ℚ) = N :=
  le_antisymm (roundHalfEven_le_of_le _ N le_rfl) (le_roundHalfEven_of_le _ N le_rfl)

theorem roundHalfEven_of_near (x : ℚ) (N : ℤ) (hlo : (N : ℚ) - 1 / 2 < x)
    (hhi : x < (N : ℚ) + 1 / 2) : roundHalfEven x = N := by
  have h1 : (⌊x⌋ : ℚ) ≤ x := Int.floor_le x
  have h2 : x < (⌊x⌋ : ℚ) + 1 := Int.lt_floor_add_one x
  unfold roundHalfEven
  split_ifs with ha hb hc
  · have : (⌊x⌋ : ℚ) < (N : ℚ) + 1 / 2 := lt_of_le_of_lt h1 hhi
    have h3 : ((⌊x⌋ : ℤ) : ℚ) < ((N + 1 : ℤ) : ℚ) := by push_cast; linarith
    have h4 : ((N - 1 : ℤ) : ℚ) < ((⌊x⌋ : ℤ) : ℚ) := by push_cast; linarith
    have h3' := Int.cast_lt.mp h3
    have h4' := Int.cast_lt.mp h4
    omega
  · have h3 : ((⌊x⌋ : ℤ) : ℚ) < ((N : ℤ) : ℚ) := by linarith
    have h4 : ((N - 2 : ℤ) : ℚ) < ((⌊x⌋ : ℤ) : ℚ) := by push_cast; linarith
    have h3' := Int.cast_lt.mp h3
    have h4' := Int.cast_lt.mp h4
    omega
  · have hx : x = (⌊x⌋ : ℚ) + 1 / 2 := by linarith
    have h3 : ((N - 1 : ℤ) : ℚ) < ((⌊x⌋ : ℤ) : ℚ) := by push_cast; linarith
    have h4 : ((⌊x⌋ : ℤ) : ℚ) < ((N : ℤ) : ℚ) := by linarith
    have h3' := Int.cast_lt.mp h3
    have h4' := Int.cast_lt.mp h4
    omega
  · have hx : x = (⌊x⌋ : ℚ) + 1 / 2 := by linarith
    have h3 : ((N - 1 : ℤ) : ℚ) < ((⌊x⌋ : ℤ) : ℚ) := by push_cast; linarith
    have h4 : ((⌊x⌋ : ℤ) : ℚ) < ((N : ℤ) : ℚ) := by linarith
    have h3' := Int.cast_lt.mp h3
    have h4' := Int.cast_lt.mp h4
    omega

/-- Rounding of a value that is not negative. -/
theorem fl_of_nonneg (q : ℚ) (hq : 0 ≤ q) :
    fl q = if (2 : ℚ) ^ 1024 ≤ (roundHalfEven (q / ulp q) : ℚ) * ulp q then JNum.posInf
      else JNum.fin ((roundHalfEven (q / ulp q) : ℚ) * ulp q) := by
  unfold fl
  rw [abs_of_nonneg hq]
  have : ¬ q < 0 := not_lt.mpr hq
  simp only [this, if_false]

theorem fl_zero : fl 0 = JNum.fin 0 := by
  rw [fl_of_nonneg 0 le_rfl]
  have h0 : roundHalfEven ((0 : ℚ) / ulp 0) = 0 := by
    rw [zero_div]; exact_mod_cast roundHalfEven_intCast 0
  rw [h0]
  have : ¬ (2 : ℚ) ^ 1024 ≤ ((0 : ℤ) : ℚ) * ulp 0 := by
    rw [Int.cast_zero, zero_mul]; exact not_le.mpr (by positivity)
  rw [if_neg this, Int.cast_zero, zero_mul]

theorem log_eq_of_bounds {q : ℚ} {b : ℤ} (hq : 0 < q) (hlo : (2 : ℚ) ^ b ≤ q)
    (hhi : q < (2 : ℚ) ^ (b + 1)) : Int.log 2 q = b := by
  have h1 : b ≤ Int.log 2 q :=
    (Int.zpow_le_iff_le_log (R := ℚ) (b := 2) (by norm_num) hq).mp (by exact_mod_cast hlo)
  have h2 : Int.log 2 q < b + 1 :=
    (Int.lt_zpow_iff_log_lt (R := ℚ) (b := 2) (by norm_num) hq).mp (by exact_mod_cast hhi)
  omega

theorem binade_eq_of_bounds {q : ℚ} {b : ℤ} (hq : 0 < q) (hb : -1022 ≤ b)
    (hlo : (2 : ℚ) ^ b ≤ q) (hhi : q < (2 : ℚ) ^ (b + 1)) : binade q = b := by
  unfold binade
  rw [log_eq_of_bounds hq hlo hhi]
  exact max_eq_left hb

/-- Rounding of a positive value whose binade and nearest multiple are known. -/
theorem fl_eval (q : ℚ) (b N : ℤ) (hq : 0 < q) (hb : -1022 ≤ b)
    (hlo : (2 : ℚ) ^ b ≤ q) (hhi : q < (2 : ℚ) ^ (b + 1))
    (hnlo : (N : ℚ) - 1 / 2 < q / (2 : ℚ) ^ (b - 52))
    (hnhi : q / (2 : ℚ) ^ (b - 52) < (N : ℚ) + 1 / 2)
    (hfin : (N : ℚ) * (2 : ℚ) ^ (b - 52) < (2 : ℚ) ^ 1024) :
    fl q = JNum.fin ((N : ℚ) * (2 : ℚ) ^ (b - 52)) := by
  rw [fl_of_nonneg q hq.le]
  have hu : ulp q = (2 : ℚ) ^ (b - 52) := by
    unfold ulp; rw [binade_eq_of_bounds hq hb hlo hhi]
  rw [hu, roundHalfEven_of_near _ N hnlo hnhi, if_neg (not_le.mpr hfin)]

/-- A value that is not negative, below `2^1024` and a multiple of the spacing of its
binade is a binary64 value. -/
theorem isDouble_of_multiple (q : ℚ) (N : ℤ) (hq : 0 ≤ q) (hN : q = (N : ℚ) * ulp q)
    (hfin : q < (2 : ℚ) ^ 1024) : IsDouble q := by
  unfold IsDouble
  rw [fl_of_nonneg q hq]
  have hdiv : q / ulp q = (N : ℚ) := by
    rw [div_eq_iff (ulp_pos q).ne']
    exact hN
  rw [hdiv, roundHalfEven_intCast, ← hN, if_neg (not_le.mpr hfin)]

theorem isDouble_grid (r : ℚ) (hr : 0 ≤ r) (hd : IsDouble r) :
    r = (roundHalfEven (r / ulp r) : ℚ) * ulp r ∧ r < (2 : ℚ) ^ 1024 := by
  unfold IsDouble at hd
  rw [fl_of_nonneg r hr] at hd
  split_ifs at hd with hc
  · have := JNum.fin.inj hd
    exact ⟨this.symm, by rw [this] at hc; exact not_le.mp hc⟩

theorem isDouble_multiple_of_ulp {x r : ℚ} (hx : 0 < x) (hxr : x ≤ r) (hd : IsDouble r) :
    ∃ N : ℤ, r = (N : ℚ) * ulp x := by
  obtain ⟨M, hM⟩ : ∃ M : ℤ, r = (M : ℚ) * ulp r :=
    ⟨_, (isDouble_grid r (le_trans hx.le hxr) hd).1⟩
  have hb : binade x ≤ binade r := binade_mono hx hxr
  refine ⟨M * 2 ^ (binade r - binade x).toNat, ?_⟩
  have hk : ((binade r - binade x).toNat : ℤ) = binade r - binade x :=
    Int.toNat_of_nonneg (by omega)
  have hu : ulp r = (2 : ℚ) ^ (binade r - binade x).toNat * ulp x := by
    unfold ulp
    rw [← zpow_natCast, ← zpow_add₀ (by norm_num : (2 : ℚ) ≠ 0), hk]
    congr 1
    ring
  calc r = (M : ℚ) * ulp r := hM
    _ = (M : ℚ) * ((2 : ℚ) ^ (binade r - binade x).toNat * ulp x) := by rw [hu]
    _ = ((M * 2 ^ (binade r - binade x).toNat : ℤ) : ℚ) * ulp x := by push_cast; ring

/-- Rounding does not cross a binary64 value from below: a value between zero and a
binary64 value rounds to a finite value between zero and it. -/
theorem fl_le_of_le {x r : ℚ} (hx : 0 ≤ x) (hxr : x ≤ r) (hd : IsDouble r) :
    ∃ y, fl x = JNum.fin y ∧ 0 ≤ y ∧ y ≤ r := by
  rcases eq_or_lt_of_le hx with h0 | hpos
  · subst h0
    exact ⟨0, fl_zero, le_rfl, hxr⟩
  · obtain ⟨N, hN⟩ := isDouble_multiple_of_ulp hpos hxr hd
    obtain ⟨-, hfin⟩ := isDouble_grid r (le_trans hx hxr) hd
    have hu := ulp_pos x
    have h1 : x / ulp x ≤ (N : ℚ) := by
      rw [div_le_iff₀ hu, ← hN]; exact hxr
    have h2 : ((roundHalfEven (x / ulp x) : ℤ) : ℚ) ≤ (N : ℚ) :=
      Int.cast_le.mpr (roundHalfEven_le_of_le _ N h1)
    have h3 : (0 : ℤ) ≤ roundHalfEven (x / ulp x) :=
      le_roundHalfEven_of_le _ 0 (by simpa using (div_pos hpos hu).le)
    have h4 : (roundHalfEven (x / ulp x) : ℚ) * ulp x ≤ r := by
      rw [hN]; exact mul_le_mul_of_nonneg_right h2 hu.le
    refine ⟨(roundHalfEven (x / ulp x) : ℚ) * ulp x, ?_, ?_, h4⟩
    · rw [fl_of_nonneg x hx, if_neg (not_le.mpr (lt_of_le_of_lt h4 hfin))]
    · exact mul_nonneg (by exact_mod_cast h3) hu.le

theorem pow52_mul_zpow (b : ℤ) :
    (4503599627370496 : ℚ) * (2 : ℚ) ^ (b - 52) = (2 : ℚ) ^ b := by
  have h : (4503599627370496 : ℚ) = (2 : ℚ) ^ (52 : ℤ) := by norm_num
  rw [h, ← zpow_add₀ (by norm_num : (2 : ℚ) ≠ 0)]
  congr 1
  ring

/-- Rounding does not cross a binary64 value from above: a value above a binary64 value
that is not negative rounds to an infinity or to a finite value above it. -/
theorem le_fl_of_le {p x : ℚ} (hp : 0 ≤ p) (hd : IsDouble p) (hpx : p ≤ x) :
    fl x = JNum.posInf ∨ ∃ y, fl x = JNum.fin y ∧ p ≤ y := by
  have hx : 0 ≤ x := le_trans hp hpx
  have hu := ulp_pos x
  have hkey : p ≤ (roundHalfEven (x / ulp x) : ℚ) * ulp x := by
    rcases eq_or_lt_of_le hp with h0 | hpos
    · rw [← h0]
      have h3 : (0 : ℤ) ≤ roundHalfEven (x / ulp x) :=
        le_roundHalfEven_of_le _ 0 (by simpa using (div_nonneg hx hu.le))
      exact mul_nonneg (by exact_mod_cast h3) hu.le
    · have hxpos : 0 < x := lt_of_lt_of_le hpos hpx
      have hb : binade p ≤ binade x := binade_mono hpos hpx
      rcases eq_or_lt_of_le hb with heq | hlt
      · obtain ⟨hgrid, -⟩ := isDouble_grid p hp hd
        have hup : ulp p = ulp x := by unfold ulp; rw [heq]
        rw [hup] at hgrid
        have h1 : ((roundHalfEven (p / ulp x) : ℤ) : ℚ) ≤ x / ulp x := by
          rw [le_div_iff₀ hu, ← hgrid]; exact hpx
        have h2 := le_roundHalfEven_of_le _ _ h1
        calc p = (roundHalfEven (p / ulp x) : ℚ) * ulp x := hgrid
          _ ≤ (roundHalfEven (x / ulp x) : ℚ) * ulp x :=
            mul_le_mul_of_nonneg_right (by exact_mod_cast h2) hu.le
      · have hbx : -1022 < binade x := lt_of_le_of_lt (binade_ge p) hlt
        have h1 : (2 : ℚ) ^ binade x ≤ x := zpow_binade_le hxpos hbx
        have h2 : ((4503599627370496 : ℤ) : ℚ) ≤ x / ulp x := by
          rw [le_div_iff₀ hu]
          unfold ulp
          push_cast
          rw [pow52_mul_zpow]; exact h1
        have h3 := le_roundHalfEven_of_le _ _ h2
        have h4 : (2 : ℚ) ^ binade x ≤ (roundHalfEven (x / ulp x) : ℚ) * ulp x := by
          have h5 : ((4503599627370496 : ℤ) : ℚ) * ulp x = (2 : ℚ) ^ binade x := by
            unfold ulp
            push_cast
            exact pow52_mul_zpow _
          rw [← h5]
          exact mul_le_mul_of_nonneg_right (by exact_mod_cast h3) hu.le
        have h6 : p < (2 : ℚ) ^ (binade p + 1) := lt_zpow_binade_succ p
        have h7 : (2 : ℚ) ^ (binade p + 1) ≤ (2 : ℚ) ^ binade x :=
          zpow_le_zpow_right₀ (by norm_num) (by omega)
        linarith
  rw [fl_of_nonneg x hx]
  split_ifs with hc
  · exact Or.inl rfl
  · exact Or.inr ⟨_, rfl, hkey⟩

/-- Every natural number below `2^53` is a binary64 value. -/
theorem isDouble_natCast (k : ℕ) (hk : k < 2 ^ 53) : IsDouble (k : ℚ) := by
  rcases Nat.eq_zero_or_pos k with h0 | hpos
  · subst h0; exact_mod_cast fl_zero
  · have hq : (0 : ℚ) < (k : ℚ) := by exact_mod_cast hpos
    have hlt : (k : ℚ) < (2 : ℚ) ^ (53 : ℤ) := by
      have h1 : (k : ℚ) < ((2 ^ 53 : ℕ) : ℚ) := by exact_mod_cast hk
      have h2 : (((2 ^ 53 : ℕ)) : ℚ) = (2 : ℚ) ^ (53 : ℤ) := by norm_num
      rw [h2] at h1
      exact h1
    have hlog : Int.log 2 (k : ℚ) < 53 :=
      (Int.lt_zpow_iff_log_lt (R := ℚ) (b := 2) (by norm_num) hq).mp (by exact_mod_cast hlt)
    have hb : binade (k : ℚ) ≤ 52 := by
      unfold binade
      exact max_le (by omega) (by norm_num)
    have hn : ((52 - binade (k : ℚ)).toNat : ℤ) = 52 - binade (k : ℚ) :=
      Int.toNat_of_nonneg (by omega)
    refine isDouble_of_multiple (k : ℚ) ((k : ℤ) * 2 ^ (52 - binade (k : ℚ)).toNat) hq.le ?_ ?_
    · unfold ulp
      push_cast
      rw [mul_assoc, ← zpow_natCast, ← zpow_add₀ (by norm_num : (2 : ℚ) ≠ 0), hn]
      have : (52 - binade (k : ℚ)) + (binade (k : ℚ) - 52) = 0 := by ring
      rw [this, zpow_zero, mul_one]
    · calc (k : ℚ) < (2 : ℚ) ^ (53 : ℤ) := hlt
        _ ≤ (2 : ℚ) ^ 1024 := by norm_num

/-! ## Summary Lookup -/

theorem getReviewSummary_fresh_null (h : Host) (appid : String) (w : World) (r : Reply)
    (rest : List Reply) (json : JVal)
    (hmiss : (w.cacheGet ("reviews:" ++ appid)).1.truthy = false)
    (hw : w.replies = r :: rest) (hb : r.body = some json)
    (hbad : ((json.get "query_summary").get "review_score_desc").truthy = false ∨
      ((json.get "query_summary").get "total_positive").isFiniteNumber = false ∨
      ((json.get "query_summary").get "total_negative").isFiniteNumber = false) :
    getReviewSummary h appid w = (some JVal.null,
      World.cacheSet
        { (w.cacheGet ("reviews:" ++ appid)).2 with
          now := w.now + r.elapsed, replies := rest,
          log := w.log ++ [appreviewsUrl appid] }
        ("reviews:" ++ appid) JVal.null (5 * 60 * 1000)) := by
  have hrep : (w.cacheGet ("reviews:" ++ appid)).2.replies = r :: rest := hw
  have hcond : (!((json.get "query_summary").get "review_score_desc").truthy ||
      !((json.get "query_summary").get "total_positive").isFiniteNumber ||
      !((json.get "query_summary").get "total_negative").isFiniteNumber) = true := by
    rcases hbad with h1 | h1 | h1 <;> simp [h1]
  unfold getReviewSummary
  simp only [hmiss, Bool.false_eq_true, if_false]
  rw [fetchJson_cons _ _ r rest hrep, hb]
  simp only [hcond, if_true]
  rfl

theorem getReviewSummary_fresh_some (h : Host) (appid : String) (w : World) (r : Reply)
    (rest : List Reply) (json : JVal) (label : String)
    (hmiss : (w.cacheGet ("reviews:" ++ appid)).1.truthy = false)
    (hw : w.replies = r :: rest) (hb : r.body = some json)
    (hdesc : ((json.get "query_summary").get "review_score_desc").truthy = true)
    (hp : ((json.get "query_summary").get "total_positive").isFiniteNumber = true)
    (hn : ((json.get "query_summary").get "total_negative").isFiniteNumber = true)
    (hl : jsString h ((json.get "query_summary").get "review_score_desc") = some label) :
    getReviewSummary h appid w =
      (some (JVal.obj
        [("label", JVal.str label),
         ("percentPositive", percentPositiveOf ((json.get "query_summary").get "total_positive")
            (jsAdd ((json.get "query_summary").get "total_positive")
              ((json.get "query_summary").get "total_negative"))),
         ("totalPositive", (json.get "query_summary").get "total_positive"),
         ("totalNegative", (json.get "query_summary").get "total_negative"),
         ("totalReviews", jsAdd ((json.get "query_summary").get "total_positive")
              ((json.get "query_summary").get "total_negative"))]),
      World.cacheSet
        { (w.cacheGet ("reviews:" ++ appid)).2 with
          now := w.now + r.elapsed, replies := rest,
          log := w.log ++ [appreviewsUrl appid] }
        ("reviews:" ++ appid)
        (JVal.obj
        [("label", JVal.str label),
         ("percentPositive", percentPositiveOf ((json.get "query_summary").get "total_positive")
            (jsAdd ((json.get "query_summary").get "total_positive")
              ((json.get "query_summary").get "total_negative"))),
         ("totalPositive", (json.get "query_summary").get "total_positive"),
         ("totalNegative", (json.get "query_summary").get "total_negative"),
         ("totalReviews", jsAdd ((json.get "query_summary").get "total_positive")
              ((json.get "query_summary").get "total_negative"))])
        (5 * 60 * 1000)) := by
  have hrep : (w.cacheGet ("reviews:" ++ appid)).2.replies = r :: rest := hw
  have hcond : (!((json.get "query_summary").get "review_score_desc").truthy ||
      !((json.get "query_summary").get "total_positive").isFiniteNumber ||
      !((json.get "query_summary").get "total_negative").isFiniteNumber) = false := by
    simp [hdesc, hp, hn]
  unfold getReviewSummary
  simp only [hmiss, Bool.false_eq_true, if_false]
  rw [fetchJson_cons _ _ r rest hrep, hb]
  simp only [hcond, Bool.false_eq_true, if_false, hl]
  rfl

theorem isFiniteNumber_iff (v : JVal) :
    v.isFiniteNumber = true ↔ ∃ q, v = JVal.num (JNum.fin q) := by
  constructor
  · intro hv
    cases v with
    | num n =>
      cases n with
      | fin q => exact ⟨q, rfl⟩
      | _ => simp [JVal.isFiniteNumber] at hv
    | _ => simp [JVal.isFiniteNumber] at hv
  · rintro ⟨q, rfl⟩; rfl

/-- The percentage computed from two finite counts that are not negative lies between
0 and 100. -/
theorem percentPositiveOf_range (p n : ℚ) (hp : 0 ≤ p) (hn : 0 ≤ n) (hd : IsDouble p) :
    ∃ x, percentPositiveOf (JVal.num (JNum.fin p))
        (jsAdd (JVal.num (JNum.fin p)) (JVal.num (JNum.fin n))) = JVal.num (JNum.fin x) ∧
      0 ≤ x ∧ x ≤ 100 := by
  have h100 : IsDouble (100 : ℚ) := by exact_mod_cast isDouble_natCast 100 (by norm_num)
  have h1 : IsDouble (1 : ℚ) := by exact_mod_cast isDouble_natCast 1 (by norm_num)
  have hzero : ∃ x, JVal.num (JNum.fin 0) = JVal.num (JNum.fin x) ∧ 0 ≤ x ∧ x ≤ 100 :=
    ⟨0, rfl, le_rfl, by norm_num⟩
  have hmul0 : JNum.mul (JNum.fin 0) (JNum.fin 100) = JNum.fin 0 := by
    simp [JNum.mul, fl_zero]
  unfold percentPositiveOf jsAdd
  simp only [JNum.add]
  rcases le_fl_of_le hp hd (le_add_of_nonneg_right hn : p ≤ p + n) with hinf | ⟨t, ht, hpt⟩
  · rw [hinf]
    simp only [jsGtZero, JNum.isPositive, if_true, jsDiv, JNum.div, jsMul, hmul0]
    exact ⟨0, rfl, le_rfl, by norm_num⟩
  · rw [ht]
    by_cases htpos : 0 < t
    · simp only [jsGtZero, JNum.isPositive, htpos, decide_True, if_true, jsDiv, JNum.div,
        htpos.ne', if_false, jsMul]
      obtain ⟨y, hy, hy0, hy1⟩ := fl_le_of_le (x := p / t) (r := 1) (div_nonneg hp htpos.le)
        ((div_le_one htpos).mpr hpt) h1
      rw [hy]
      simp only [JNum.mul]
      obtain ⟨z, hz, hz0, hz1⟩ := fl_le_of_le (x := y * 100) (r := 100)
        (mul_nonneg hy0 (by norm_num)) (by nlinarith) h100
      exact ⟨z, by rw [hz], hz0, hz1⟩
    · simp only [jsGtZero, JNum.isPositive, htpos, decide_False, Bool.false_eq_true, if_false]
      exact hzero

theorem div_80_100 :
    JNum.div (JNum.fin 80) (JNum.fin 100)
      = JNum.fin ((7205759403792794 : ℤ) * (2 : ℚ) ^ ((-1 : ℤ) - 52)) := by
  have h : (100 : ℚ) ≠ 0 := by norm_num
  simp only [JNum.div, h, if_false]
  exact fl_eval (80 / 100) (-1) 7205759403792794 (by norm_num) (by norm_num) (by norm_num)
    (by norm_num) (by norm_num) (by norm_num) (by norm_num)

theorem percent_80_20 :
    JNum.mul (JNum.div (JNum.fin 80) (JNum.fin 100)) (JNum.fin 100) = JNum.fin 80 := by
  rw [div_80_100]
  simp only [JNum.mul]
  have := fl_eval ((7205759403792794 : ℤ) * (2 : ℚ) ^ ((-1 : ℤ) - 52) * 100) 6
    5629499534213120 (by norm_num) (by norm_num) (by norm_num)
    (by norm_num) (by norm_num) (by norm_num) (by norm_num)
  rw [this]
  norm_num

theorem roundHalfEven_error (x : ℚ) : |(roundHalfEven x : ℚ) - x| ≤ 1 / 2 := by
  have h1 : (⌊x⌋ : ℚ) ≤ x := Int.floor_le x
  have h2 : x < (⌊x⌋ : ℚ) + 1 := Int.lt_floor_add_one x
  rw [abs_le]
  unfold roundHalfEven
  split_ifs with ha hb hc
  · constructor <;> linarith
  · push_cast; constructor <;> linarith
  · constructor <;> linarith
  · push_cast; constructor <;> linarith

theorem ulp_le_of_lt {x : ℚ} {b : ℤ} (hx : 0 < x) (hb : -1022 ≤ b)
    (hlt : x < (2 : ℚ) ^ (b + 1)) : ulp x ≤ (2 : ℚ) ^ (b - 52) := by
  have hlog : Int.log 2 x < b + 1 :=
    (Int.lt_zpow_iff_log_lt (R := ℚ) (b := 2) (by norm_num) hx).mp (by exact_mod_cast hlt)
  have hbin : binade x ≤ b := by
    unfold binade
    exact max_le (by omega) hb
  unfold ulp
  exact zpow_le_zpow_right₀ (by norm_num) (by omega)

/-- The rounding error of a value that is not negative and lies below `2^(b+1)` is at
most half the spacing `2^(b-52)`. -/
theorem fl_error {x y : ℚ} {b : ℤ} (hx : 0 ≤ x) (hb : -1022 ≤ b)
    (hlt : x < (2 : ℚ) ^ (b + 1)) (hy : fl x = JNum.fin y) :
    |y - x| ≤ (2 : ℚ) ^ (b - 52) / 2 := by
  rcases eq_or_lt_of_le hx with h0 | hpos
  · subst h0
    rw [fl_zero] at hy
    have : y = 0 := (JNum.fin.inj hy).symm
    rw [this]
    simp only [sub_zero, abs_zero]
    exact div_nonneg (two_zpow_pos _).le (by norm_num)
  · have hu := ulp_pos x
    rw [fl_of_nonneg x hx] at hy
    split_ifs at hy with hc
    have hyv : y = (roundHalfEven (x / ulp x) : ℚ) * ulp x := (JNum.fin.inj hy).symm
    have herr := roundHalfEven_error (x / ulp x)
    have h1 : y - x = ((roundHalfEven (x / ulp x) : ℚ) - x / ulp x) * ulp x := by
      rw [hyv]; field_simp
    rw [h1, abs_mul, abs_of_pos hu]
    calc |(roundHalfEven (x / ulp x) : ℚ) - x / ulp x| * ulp x
        ≤ 1 / 2 * ulp x := mul_le_mul_of_nonneg_right herr hu.le
      _ ≤ 1 / 2 * (2 : ℚ) ^ (b - 52) :=
        mul_le_mul_of_nonneg_left (ulp_le_of_lt hpos hb hlt) (by norm_num)
      _ = (2 : ℚ) ^ (b - 52) / 2 := by ring

/-- The percentage the code computes from a part `p` of a positive total `t` is finite
and within `2^-45` of the exact percentage. -/
theorem percent_error (p t : ℚ) (hp : 0 ≤ p) (ht : 0 < t) (hpt : p ≤ t) :
    ∃ x, JNum.mul (JNum.div (JNum.fin p) (JNum.fin t)) (JNum.fin 100) = JNum.fin x ∧
      |x - p / t * 100| ≤ 1 / 2 ^ 45 := by
  have h100 : IsDouble (100 : ℚ) := by exact_mod_cast isDouble_natCast 100 (by norm_num)
  have h1 : IsDouble (1 : ℚ) := by exact_mod_cast isDouble_natCast 1 (by norm_num)
  obtain ⟨y, hy, hy0, hy1⟩ := fl_le_of_le (x := p / t) (r := 1) (div_nonneg hp ht.le)
    ((div_le_one ht).mpr hpt) h1
  obtain ⟨z, hz, hz0, hz1⟩ := fl_le_of_le (x := y * 100) (r := 100)
    (mul_nonneg hy0 (by norm_num)) (by nlinarith) h100
  have e1 : |y - p / t| ≤ (2 : ℚ) ^ ((0 : ℤ) - 52) / 2 :=
    fl_error (div_nonneg hp ht.le) (by norm_num)
      (lt_of_le_of_lt ((div_le_one ht).mpr hpt) (by norm_num)) hy
  have e2 : |z - y * 100| ≤ (2 : ℚ) ^ ((6 : ℤ) - 52) / 2 :=
    fl_error (mul_nonneg hy0 (by norm_num)) (by norm_num)
      (lt_of_le_of_lt (by nlinarith : y * 100 ≤ 100) (by norm_num)) hz
  refine ⟨z, ?_, ?_⟩
  · simp only [JNum.div, ht.ne', if_false, hy, JNum.mul, hz]
  · have e3 : z - p / t * 100 = (z - y * 100) + (y - p / t) * 100 := by ring
    rw [e3]
    have e4 : |(y - p / t) * 100| = |y - p / t| * 100 := by
      rw [abs_mul]; norm_num
    calc |(z - y * 100) + (y - p / t) * 100|
        ≤ |z - y * 100| + |(y - p / t) * 100| := abs_add _ _
      _ ≤ (2 : ℚ) ^ ((6 : ℤ) - 52) / 2 + (2 : ℚ) ^ ((0 : ℤ) - 52) / 2 * 100 := by
        rw [e4]; linarith
      _ ≤ 1 / 2 ^ 45 := by norm_num

/-- C8, amended. On a cache miss, for an aggregate reply whose summary has a non-empty
label `L` and counts that are natural numbers `p` and `n`, Summary Lookup returns the
label `L`, `totalPositive` `p`, `totalNegative` `n`, `totalReviews` the binary64 sum of
`p` and `n`, and `percentPositive` the binary64 value of `(p / (p + n)) * 100` (quotient
and product each rounded) when `p + n > 0` and exactly 0 when `p = n = 0`. For
`p + n < 2^53` the sum is `p + n` itself and the percentage is a finite value within
`2^-45` of the exact one. -/
theorem getReviewSummary_percent (h : Host) (appid : String) (w : World) (r : Reply)
    (rest : List Reply) (json : JVal) (L : String) (p n : ℕ)
    (hmiss : (w.cacheGet ("reviews:" ++ appid)).1.truthy = false)
    (hw : w.replies = r :: rest) (hb : r.body = some json)
    (hL : (json.get "query_summary").get "review_score_desc" = JVal.str L) (hLne : L ≠ "")
    (hp : (json.get "query_summary").get "total_positive" = JVal.num (JNum.fin p))
    (hn : (json.get "query_summary").get "total_negative" = JVal.num (JNum.fin n)) :
    ∃ pct : JNum,
      (getReviewSummary h appid w).1 = some (JVal.obj
        [("label", JVal.str L),
         ("percentPositive", JVal.num pct),
         ("totalPositive", JVal.num (JNum.fin p)),
         ("totalNegative", JVal.num (JNum.fin n)),
         ("totalReviews", JVal.num (JNum.add (JNum.fin p) (JNum.fin n)))]) ∧
      (0 < p + n →
        pct = JNum.mul (JNum.div (JNum.fin p) (JNum.add (JNum.fin p) (JNum.fin n)))
          (JNum.fin 100)) ∧
      (p = 0 → n = 0 → pct = JNum.fin 0) ∧
      (p + n < 2 ^ 53 →
        JNum.add (JNum.fin p) (JNum.fin n) = JNum.fin ((p : ℚ) + (n : ℚ)) ∧
        (0 < p + n →
          ∃ x, pct = JNum.fin x ∧ |x - (p : ℚ) / ((p : ℚ) + (n : ℚ)) * 100| ≤ 1 / 2 ^ 45)) := by
  have hres := getReviewSummary_fresh_some h appid w r rest json L hmiss hw hb
    (by rw [hL]; simp [JVal.truthy, hLne]) (by rw [hp]; rfl) (by rw [hn]; rfl)
    (by rw [hL]; rfl)
  rw [hp, hn] at hres
  have hpos : 0 < p + n → JNum.isPositive (JNum.add (JNum.fin p) (JNum.fin n)) = true := by
    intro hlt
    have h1 : IsDouble (1 : ℚ) := by exact_mod_cast isDouble_natCast 1 (by norm_num)
    have hle : (1 : ℚ) ≤ (p : ℚ) + (n : ℚ) := by exact_mod_cast hlt
    simp only [JNum.add]
    rcases le_fl_of_le (by norm_num) h1 hle with hinf | ⟨y, hy, h1y⟩
    · rw [hinf]; rfl
    · rw [hy]
      have : (0 : ℚ) < y := by linarith
      simp [JNum.isPositive, this]
  refine ⟨if JNum.isPositive (JNum.add (JNum.fin p) (JNum.fin n)) = true then
      JNum.mul (JNum.div (JNum.fin p) (JNum.add (JNum.fin p) (JNum.fin n))) (JNum.fin 100)
    else JNum.fin 0, ?_, ?_, ?_, ?_⟩
  · rw [hres]
    simp only [percentPositiveOf, jsAdd, jsGtZero, jsDiv, jsMul]
    split_ifs <;> rfl
  · intro hlt
    rw [if_pos (hpos hlt)]
  · intro hp0 hn0
    subst hp0 hn0
    have hz : JNum.add (JNum.fin ((0 : ℕ) : ℚ)) (JNum.fin ((0 : ℕ) : ℚ)) = JNum.fin 0 := by
      simp only [JNum.add]
      norm_num
      exact fl_zero
    rw [hz]
    simp [JNum.isPositive]
  · intro hsafe
    have hsum : JNum.add (JNum.fin p) (JNum.fin n) = JNum.fin ((p : ℚ) + (n : ℚ)) := by
      have := isDouble_natCast (p + n) hsafe
      unfold IsDouble at this
      push_cast at this
      simp only [JNum.add]
      exact this
    refine ⟨hsum, fun hlt => ?_⟩
    have hq : (0 : ℚ) < (p : ℚ) + (n : ℚ) := by exact_mod_cast hlt
    obtain ⟨x, hx, hxe⟩ := percent_error (p : ℚ) ((p : ℚ) + (n : ℚ)) (by positivity) hq
      (by linarith [(Nat.cast_nonneg n : (0 : ℚ) ≤ n)])
    refine ⟨x, ?_, hxe⟩
    rw [if_pos (hpos hlt), hsum]
    exact hx

theorem fl_100 : fl 100 = JNum.fin 100 := by
  have := isDouble_natCast 100 (by norm_num)
  unfold IsDouble at this
  exact_mod_cast this

/-- The summary computed for 80 positive and 20 negative reviews labelled `Positive`. -/
theorem summary_80_20 :
    (getReviewSummary sampleHost "440" (freshWorld [reviewReplyPositive])).1
      = some (JVal.obj
          [("label", JVal.str "Positive"),
           ("percentPositive", JVal.num (JNum.fin 80)),
           ("totalPositive", JVal.num (JNum.fin 80)),
           ("totalNegative", JVal.num (JNum.fin 20)),
           ("totalReviews", JVal.num (JNum.fin 100))]) := by
  rw [getReviewSummary_fresh_some sampleHost "440" (freshWorld [reviewReplyPositive])
    reviewReplyPositive [] _ "Positive" rfl rfl rfl rfl rfl rfl rfl]
  have hp : ((JVal.obj [("success", JVal.num (JNum.fin 1)),
      ("query_summary", JVal.obj [("review_score_desc", JVal.str "Positive"),
        ("total_positive", JVal.num (JNum.fin 80)),
        ("total_negative", JVal.num (JNum.fin 20))])]).get "query_summary").get
        "total_positive" = JVal.num (JNum.fin 80) := rfl
  have hn : ((JVal.obj [("success", JVal.num (JNum.fin 1)),
      ("query_summary", JVal.obj [("review_score_desc", JVal.str "Positive"),
        ("total_positive", JVal.num (JNum.fin 80)),
        ("total_negative", JVal.num (JNum.fin 20))])]).get "query_summary").get
        "total_negative" = JVal.num (JNum.fin 20) := rfl
  have hsum : JNum.add (JNum.fin 80) (JNum.fin 20) = JNum.fin 100 := by
    simp only [JNum.add]
    norm_num
    exact fl_100
  have hpos : JNum.isPositive (JNum.fin 100) = true := by
    simp [JNum.isPositive]
  simp only [hp, hn, jsAdd, hsum, percentPositiveOf, jsGtZero, hpos, if_true, jsDiv, jsMul,
    percent_80_20]

/-- Witness of C8, amended: 80 positive and 20 negative reviews with the label `Positive` give
`percentPositive` 80 and the label `Positive`. -/
theorem getReviewSummary_percent_witness :
    (∃ pct : JNum,
      (getReviewSummary sampleHost "440" (freshWorld [reviewReplyPositive])).1
        = some (JVal.obj
          [("label", JVal.str "Positive"),
           ("percentPositive", JVal.num pct),
           ("totalPositive", JVal.num (JNum.fin ((80 : ℕ) : ℚ))),
           ("totalNegative", JVal.num (JNum.fin ((20 : ℕ) : ℚ))),
           ("totalReviews", JVal.num
              (JNum.add (JNum.fin ((80 : ℕ) : ℚ)) (JNum.fin ((20 : ℕ) : ℚ))))]) ∧
      (0 < 80 + 20 →
        pct = JNum.mul (JNum.div (JNum.fin ((80 : ℕ) : ℚ))
            (JNum.add (JNum.fin ((80 : ℕ) : ℚ)) (JNum.fin ((20 : ℕ) : ℚ)))) (JNum.fin 100)) ∧
      (80 = 0 → 20 = 0 → pct = JNum.fin 0) ∧
      (80 + 20 < 2 ^ 53 →
        JNum.add (JNum.fin ((80 : ℕ) : ℚ)) (JNum.fin ((20 : ℕ) : ℚ))
          = JNum.fin (((80 : ℕ) : ℚ) + ((20 : ℕ) : ℚ)) ∧
        (0 < 80 + 20 →
          ∃ x, pct = JNum.fin x ∧
            |x - ((80 : ℕ) : ℚ) / (((80 : ℕ) : ℚ) + ((20 : ℕ) : ℚ)) * 100| ≤ 1 / 2 ^ 45))) ∧
    (getReviewSummary sampleHost "440" (freshWorld [reviewReplyPositive])).1
      = some (JVal.obj
          [("label", JVal.str "Positive"),
           ("percentPositive", JVal.num (JNum.fin 80)),
           ("totalPositive", JVal.num (JNum.fin 80)),
           ("totalNegative", JVal.num (JNum.fin 20)),
           ("totalReviews", JVal.num (JNum.fin 100))]) :=
  ⟨getReviewSummary_percent sampleHost "440" (freshWorld [reviewReplyPositive])
    reviewReplyPositive [] _ "Positive" 80 20 rfl rfl rfl rfl (by decide)
    (by simp [JVal.get, JVal.lookup]) (by simp [JVal.get, JVal.lookup]),
   summary_80_20⟩

theorem fl_neg_of_pos (q : ℚ) (hq : 0 < q) (hd : IsDouble q) : fl (-q) = JNum.fin (-q) := by
  obtain ⟨hgrid, hfin⟩ := isDouble_grid q hq.le hd
  unfold fl
  have hneg : -q < 0 := by linarith
  rw [abs_neg, abs_of_pos hq, ← hgrid]
  simp only [hneg, if_true, not_le.mpr hfin, if_false]

theorem appname_ne_reviews (a b : String) : "appname:" ++ a ≠ "reviews:" ++ b := by
  intro he
  have hd := congrArg String.data he
  simp at hd

theorem storesearch_ne_reviews (a b : String) : "storesearch:" ++ a ≠ "reviews:" ++ b := by
  intro he
  have hd := congrArg String.data he
  simp at hd

theorem players_ne_reviews (a b : String) : "players:" ++ a ≠ "reviews:" ++ b := by
  intro he
  have hd := congrArg String.data he
  simp at hd

theorem reviewsCacheOK_nil : ReviewsCacheOK [] := by
  intro appid e he
  simp [mapGet] at he

theorem reviewsCacheOK_cacheGet (c : List (String × CacheEntry)) (now : Nat) (key : String)
    (hinv : ReviewsCacheOK c) : ReviewsCacheOK (cacheGet c now key).2 := by
  intro appid e he
  apply hinv appid e
  unfold cacheGet at he
  cases hg : mapGet c key with
  | none => rw [hg] at he; exact he
  | some cached =>
    rw [hg] at he
    simp only [] at he
    split_ifs at he with hexp
    · rw [mapGet_mapDelete] at he
      split_ifs at he with hk
      exact he
    · exact he

theorem reviewsCacheOK_cacheSet (c : List (String × CacheEntry)) (now : Nat) (key : String)
    (v : JVal) (ttl : Nat) (hinv : ReviewsCacheOK c)
    (hv : (∃ appid, key = "reviews:" ++ appid) → v.truthy = true → IsSummary v) :
    ReviewsCacheOK (cacheSet c now key v ttl) := by
  intro appid e he
  unfold cacheSet at he
  rw [mapGet_mapSet] at he
  split_ifs at he with hk
  · have hev : e.value = v := by
      have := Option.some.inj he
      rw [← this]
    rw [hev]
    exact hv ⟨appid, hk⟩
  · exact hinv appid e he

theorem World.cacheGet_truthy (w : World) (key : String)
    (ht : (w.cacheGet key).1.truthy = true) :
    ∃ e, mapGet w.cache key = some e ∧ (w.cacheGet key).1 = e.value := by
  unfold World.cacheGet at ht ⊢
  unfold SteamAppBot.cacheGet at ht ⊢
  cases hg : mapGet w.cache key with
  | none => rw [hg] at ht; simp [JVal.truthy] at ht
  | some cached =>
    rw [hg] at ht
    simp only [] at ht ⊢
    split_ifs at ht ⊢ with hexp
    · simp [JVal.truthy] at ht
    · exact ⟨cached, rfl, rfl⟩

theorem percentPositiveOf_num (a b : JNum) :
    ∃ pct, percentPositiveOf (JVal.num a) (jsAdd (JVal.num a) (JVal.num b)) = JVal.num pct := by
  unfold percentPositiveOf jsAdd
  simp only []
  split_ifs
  · exact ⟨_, rfl⟩
  · exact ⟨_, rfl⟩

theorem isSummary_of_counts (label : String) (p n : ℚ) :
    IsSummary (JVal.obj
      [("label", JVal.str label),
       ("percentPositive", percentPositiveOf (JVal.num (JNum.fin p))
          (jsAdd (JVal.num (JNum.fin p)) (JVal.num (JNum.fin n)))),
       ("totalPositive", JVal.num (JNum.fin p)),
       ("totalNegative", JVal.num (JNum.fin n)),
       ("totalReviews", jsAdd (JVal.num (JNum.fin p)) (JVal.num (JNum.fin n)))]) := by
  obtain ⟨pct, hpct⟩ := percentPositiveOf_num (JNum.fin p) (JNum.fin n)
  refine ⟨label, p, n, pct, ?_, ?_⟩
  · rw [hpct]; rfl
  · intro hp hn hd
    obtain ⟨x, hx, hx0, hx1⟩ := percentPositiveOf_range p n hp hn hd
    rw [hpct] at hx
    exact ⟨x, JVal.num.inj hx, hx0, hx1⟩

/-- C7, amended. In a cache that holds only review summaries under the keys
`reviews:<id>`, a non-null value returned by Summary Lookup is a review summary: its
counts are finite numbers (of either sign, whole or not), `totalReviews` is their
binary64 sum, and `percentPositive` lies between 0 and 100 when neither count is
negative. The cache holds only review summaries under these keys afterwards as well.
On a miss, a reply whose label is falsy (missing, empty) or one of whose counts is not a
finite number yields `null`. -/
theorem getReviewSummary_summary (h : Host) (appid : String) (w : World)
    (hinv : ReviewsCacheOK w.cache) :
    (∀ s w1, getReviewSummary h appid w = (some s, w1) → s ≠ JVal.null →
      ∃ (label : String) (p n : ℚ) (pct : JNum),
        s = JVal.obj
          [("label", JVal.str label),
           ("percentPositive", JVal.num pct),
           ("totalPositive", JVal.num (JNum.fin p)),
           ("totalNegative", JVal.num (JNum.fin n)),
           ("totalReviews", JVal.num (JNum.add (JNum.fin p) (JNum.fin n)))] ∧
        (0 ≤ p → 0 ≤ n → IsDouble p → ∃ x, pct = JNum.fin x ∧ 0 ≤ x ∧ x ≤ 100)) ∧
    ReviewsCacheOK (getReviewSummary h appid w).2.cache ∧
    (∀ r rest json, (w.cacheGet ("reviews:" ++ appid)).1.truthy = false →
      w.replies = r :: rest → r.body = some json →
      (((json.get "query_summary").get "review_score_desc").truthy = false ∨
        ((json.get "query_summary").get "total_positive").isFiniteNumber = false ∨
        ((json.get "query_summary").get "total_negative").isFiniteNumber = false) →
      (getReviewSummary h appid w).1 = some JVal.null) := by
  have hinv1 : ReviewsCacheOK (w.cacheGet ("reviews:" ++ appid)).2.cache :=
    reviewsCacheOK_cacheGet _ _ _ hinv
  refine ⟨?_, ?_, ?_⟩
  · intro s w1 hr hs
    change IsSummary s
    unfold getReviewSummary at hr
    simp only [] at hr
    split_ifs at hr with hhit
    · obtain ⟨e, he, hval⟩ := World.cacheGet_truthy w _ hhit
      have hv := congrArg Prod.fst hr
      simp only [Option.some.injEq] at hv
      rw [← hv, hval]
      exact hinv appid e he (by rw [← hval]; exact hhit)
    · rcases hf : fetchJson (appreviewsUrl appid) (w.cacheGet ("reviews:" ++ appid)).2
        with ⟨_ | json, w2⟩
      · rw [hf] at hr; simp at hr
      · rw [hf] at hr
        simp only [] at hr
        split_ifs at hr with hbad
        · have hv := congrArg Prod.fst hr
          simp only [Option.some.injEq] at hv
          exact absurd hv.symm hs
        · cases hj : jsString h ((json.get "query_summary").get "review_score_desc") with
          | none => rw [hj] at hr; simp at hr
          | some label =>
            rw [hj] at hr
            have hv := congrArg Prod.fst hr
            simp only [Option.some.injEq] at hv
            have hgood : ((json.get "query_summary").get "total_positive").isFiniteNumber = true ∧
                ((json.get "query_summary").get "total_negative").isFiniteNumber = true := by
              simp only [Bool.or_eq_true, Bool.not_eq_true', not_or, Bool.not_eq_false] at hbad
              exact ⟨hbad.1.2, hbad.2⟩
            obtain ⟨p, hp⟩ := (isFiniteNumber_iff _).mp hgood.1
            obtain ⟨n, hn⟩ := (isFiniteNumber_iff _).mp hgood.2
            rw [← hv, hp, hn]
            exact isSummary_of_counts label p n
  · unfold getReviewSummary
    simp only []
    split_ifs with hhit
    · exact hinv1
    · have hc := fetchJson_cache (appreviewsUrl appid) (w.cacheGet ("reviews:" ++ appid)).2
      rcases hf : fetchJson (appreviewsUrl appid) (w.cacheGet ("reviews:" ++ appid)).2
        with ⟨_ | json, w2⟩
      · rw [hf] at hc
        simp only [] at hc ⊢
        rw [hc]; exact hinv1
      · rw [hf] at hc
        simp only [] at hc ⊢
        have hinv2 : ReviewsCacheOK w2.cache := by rw [hc]; exact hinv1
        split_ifs with hbad
        · exact reviewsCacheOK_cacheSet _ _ _ _ _ hinv2
            (fun _ ht => absurd ht (by simp [truthy_null]))
        · cases hj : jsString h ((json.get "query_summary").get "review_score_desc") with
          | none => exact hinv2
          | some label =>
            have hgood : ((json.get "query_summary").get "total_positive").isFiniteNumber = true ∧
                ((json.get "query_summary").get "total_negative").isFiniteNumber = true := by
              simp only [Bool.or_eq_true, Bool.not_eq_true', not_or, Bool.not_eq_false] at hbad
              exact ⟨hbad.1.2, hbad.2⟩
            obtain ⟨p, hp⟩ := (isFiniteNumber_iff _).mp hgood.1
            obtain ⟨n, hn⟩ := (isFiniteNumber_iff _).mp hgood.2
            simp only []
            refine reviewsCacheOK_cacheSet _ _ _ _ _ hinv2 (fun _ _ => ?_)
            rw [hp, hn]
            exact isSummary_of_counts label p n
  · intro r rest json hmiss hw hb hbad
    rw [getReviewSummary_fresh_null h appid w r rest json hmiss hw hb hbad]

theorem getAppName_keeps_reviews (appid : String) (w : World)
    (hinv : ReviewsCacheOK w.cache) : ReviewsCacheOK (getAppName appid w).2.cache := by
  have hinv1 : ReviewsCacheOK (w.cacheGet ("appname:" ++ appid)).2.cache :=
    reviewsCacheOK_cacheGet _ _ _ hinv
  unfold getAppName
  simp only []
  split_ifs with hhit
  · exact hinv1
  · have hc := fetchJson_cache (appdetailsUrl appid) (w.cacheGet ("appname:" ++ appid)).2
    rcases hf : fetchJson (appdetailsUrl appid) (w.cacheGet ("appname:" ++ appid)).2
      with ⟨_ | json, w2⟩
    · rw [hf] at hc
      simp only [] at hc ⊢
      rw [hc]; exact hinv1
    · rw [hf] at hc
      simp only [] at hc ⊢
      have hinv2 : ReviewsCacheOK w2.cache := by rw [hc]; exact hinv1
      split_ifs
      · exact hinv2
      · exact reviewsCacheOK_cacheSet _ _ _ _ _ hinv2
          (fun ⟨a, ha⟩ => absurd ha (appname_ne_reviews _ _))

theorem storeSearchFirst_keeps_reviews (h : Host) (queryText : String) (w : World)
    (hinv : ReviewsCacheOK w.cache) :
    ReviewsCacheOK (storeSearchFirst h queryText w).2.cache := by
  have hinv1 : ReviewsCacheOK
      (w.cacheGet ("storesearch:" ++ toLowerCase h (jsTrim queryText))).2.cache :=
    reviewsCacheOK_cacheGet _ _ _ hinv
  unfold storeSearchFirst
  simp only []
  split_ifs with hhit
  · exact hinv1
  · have hc := fetchJson_cache (storesearchUrl queryText)
      (w.cacheGet ("storesearch:" ++ toLowerCase h (jsTrim queryText))).2
    rcases hf : fetchJson (storesearchUrl queryText)
      (w.cacheGet ("storesearch:" ++ toLowerCase h (jsTrim queryText))).2 with ⟨_ | json, w2⟩
    · rw [hf] at hc
      simp only [] at hc ⊢
      rw [hc]; exact hinv1
    · rw [hf] at hc
      simp only [] at hc ⊢
      have hinv2 : ReviewsCacheOK w2.cache := by rw [hc]; exact hinv1
      split_ifs
      · exact reviewsCacheOK_cacheSet _ _ _ _ _ hinv2
          (fun ⟨a, ha⟩ => absurd ha (storesearch_ne_reviews _ _))
      · exact reviewsCacheOK_cacheSet _ _ _ _ _ hinv2
          (fun ⟨a, ha⟩ => absurd ha (storesearch_ne_reviews _ _))

theorem getCurrentPlayers_keeps_reviews (apiKey appid : String) (w : World)
    (hinv : ReviewsCacheOK w.cache) :
    ReviewsCacheOK (getCurrentPlayers apiKey appid w).2.cache := by
  have hinv1 : ReviewsCacheOK (w.cacheGet ("players:" ++ appid)).2.cache :=
    reviewsCacheOK_cacheGet _ _ _ hinv
  unfold getCurrentPlayers
  simp only []
  split_ifs with hhit
  · exact hinv1
  · have hc := fetchJson_cache (playersUrl apiKey appid) (w.cacheGet ("players:" ++ appid)).2
    rcases hf : fetchJson (playersUrl apiKey appid) (w.cacheGet ("players:" ++ appid)).2
      with ⟨_ | json, w2⟩
    · rw [hf] at hc
      simp only [] at hc ⊢
      rw [hc]; exact hinv1
    · rw [hf] at hc
      simp only [] at hc ⊢
      have hinv2 : ReviewsCacheOK w2.cache := by rw [hc]; exact hinv1
      split_ifs
      · exact hinv2
      · exact reviewsCacheOK_cacheSet _ _ _ _ _ hinv2
          (fun ⟨a, ha⟩ => absurd ha (players_ne_reviews _ _))

theorem namedApp_world (id : String) (res : Option JVal × World) :
    (namedApp id res).2 = res.2 := by
  obtain ⟨_ | v, w1⟩ := res <;> rfl

theorem resolveSearch_world (h : Host) (t : String) (w : World) :
    (resolveSearch h t w).2 = (storeSearchFirst h t w).2 := by
  unfold resolveSearch
  rcases storeSearchFirst h t w with ⟨_ | v, w1⟩
  · rfl
  · simp only []
    split_ifs
    · rfl
    · cases jsString h (v.get "appid") <;> rfl

theorem resolveApp_keeps_reviews (h : Host) (inputText : String) (w : World)
    (hinv : ReviewsCacheOK w.cache) : ReviewsCacheOK (resolveApp h inputText w).2.cache := by
  unfold resolveApp resolveAppWith
  simp only []
  split_ifs with hempty hdig
  · exact hinv
  · rw [namedApp_world]; exact getAppName_keeps_reviews _ w hinv
  · cases mapGet builtInAliases (normalizeLookupText h (jsTrim inputText)) with
    | none =>
      simp only []
      rw [resolveSearch_world]; exact storeSearchFirst_keeps_reviews h _ w hinv
    | some id =>
      simp only []
      split_ifs
      · rw [resolveSearch_world]; exact storeSearchFirst_keeps_reviews h _ w hinv
      · rw [namedApp_world]; exact getAppName_keeps_reviews _ w hinv

theorem percent_3_neg1 :
    percentPositiveOf (JVal.num (JNum.fin 3))
      (jsAdd (JVal.num (JNum.fin 3)) (JVal.num (JNum.fin (-1)))) = JVal.num (JNum.fin 150) := by
  have h2 : fl 2 = JNum.fin 2 := by
    have := isDouble_natCast 2 (by norm_num)
    unfold IsDouble at this
    exact_mod_cast this
  have h150 : fl 150 = JNum.fin 150 := by
    have := isDouble_natCast 150 (by norm_num)
    unfold IsDouble at this
    exact_mod_cast this
  have hsum : JNum.add (JNum.fin 3) (JNum.fin (-1)) = JNum.fin 2 := by
    simp only [JNum.add]
    norm_num
    exact h2
  have hdiv : JNum.div (JNum.fin 3) (JNum.fin 2) = JNum.fin (3 / 2) := by
    have hne : (2 : ℚ) ≠ 0 := by norm_num
    simp only [JNum.div, hne, if_false]
    have := fl_eval (3 / 2) 0 6755399441055744 (by norm_num) (by norm_num) (by norm_num)
      (by norm_num) (by norm_num) (by norm_num) (by norm_num)
    rw [this]
    norm_num
  have hmul : JNum.mul (JNum.fin (3 / 2)) (JNum.fin 100) = JNum.fin 150 := by
    simp only [JNum.mul]
    norm_num
    exact h150
  have hpos : JNum.isPositive (JNum.fin 2) = true := by simp [JNum.isPositive]
  simp only [jsAdd, hsum, percentPositiveOf, jsGtZero, hpos, if_true, jsDiv, hdiv, jsMul, hmul]

/-- C7, as stated, fails: for counts 3 and -1 under the label `Mixed` Summary Lookup
returns a summary, not `null`; its `totalNegative` is negative and its
`percentPositive` is 150. -/
theorem getReviewSummary_negative_count :
    ∃ (s : JVal) (w1 : World) (tn pct : ℚ),
      getReviewSummary sampleHost "440" (freshWorld [reviewReplyNegative]) = (some s, w1) ∧
      s ≠ JVal.null ∧
      s.get "totalNegative" = JVal.num (JNum.fin tn) ∧ tn < 0 ∧
      s.get "percentPositive" = JVal.num (JNum.fin pct) ∧ 100 < pct :=
  ⟨_, _, -1, 150,
    getReviewSummary_fresh_some sampleHost "440" (freshWorld [reviewReplyNegative])
      reviewReplyNegative [] _ "Mixed" rfl rfl rfl rfl rfl rfl rfl,
    fun e => JVal.noConfusion e, rfl, by norm_num, percent_3_neg1, by norm_num⟩

/-- Witness of C7, amended: against an empty cache, the summary returned for 80
positive and 20 negative reviews. -/
theorem getReviewSummary_summary_witness :
    ∃ (label : String) (p n : ℚ) (pct : JNum),
      JVal.obj
          [("label", JVal.str "Positive"),
           ("percentPositive", JVal.num (JNum.fin 80)),
           ("totalPositive", JVal.num (JNum.fin 80)),
           ("totalNegative", JVal.num (JNum.fin 20)),
           ("totalReviews", JVal.num (JNum.fin 100))]
        = JVal.obj
          [("label", JVal.str label),
           ("percentPositive", JVal.num pct),
           ("totalPositive", JVal.num (JNum.fin p)),
           ("totalNegative", JVal.num (JNum.fin n)),
           ("totalReviews", JVal.num (JNum.add (JNum.fin p) (JNum.fin n)))] ∧
        (0 ≤ p → 0 ≤ n → IsDouble p → ∃ x, pct = JNum.fin x ∧ 0 ≤ x ∧ x ≤ 100) :=
  (getReviewSummary_summary sampleHost "440" (freshWorld [reviewReplyPositive])
    reviewsCacheOK_nil).1 _
    (getReviewSummary sampleHost "440" (freshWorld [reviewReplyPositive])).2
    (Prod.ext summary_80_20 rfl) (fun e => JVal.noConfusion e)

theorem roundHalfEven_tie_even (x : ℚ) (N : ℤ) (hx : x = (N : ℚ) + 1 / 2) (hN : N % 2 = 0) :
    roundHalfEven x = N := by
  have hfloor : ⌊x⌋ = N := by
    rw [Int.floor_eq_iff, hx]
    constructor <;> linarith
  unfold roundHalfEven
  rw [hfloor]
  have h1 : ¬ x - (N : ℚ) < 1 / 2 := by rw [hx]; norm_num
  have h2 : ¬ 1 / 2 < x - (N : ℚ) := by rw [hx]; norm_num
  simp only [h1, h2, hN, if_true, if_false]

/-- Rounding of a positive value half way between two binary64 values, the lower one
with an even significand. -/
theorem fl_eval_tie_even (q : ℚ) (b N : ℤ) (hq : 0 < q) (hb : -1022 ≤ b)
    (hlo : (2 : ℚ) ^ b ≤ q) (hhi : q < (2 : ℚ) ^ (b + 1))
    (htie : q / (2 : ℚ) ^ (b - 52) = (N : ℚ) + 1 / 2) (hN : N % 2 = 0)
    (hfin : (N : ℚ) * (2 : ℚ) ^ (b - 52) < (2 : ℚ) ^ 1024) :
    fl q = JNum.fin ((N : ℚ) * (2 : ℚ) ^ (b - 52)) := by
  rw [fl_of_nonneg q hq.le]
  have hu : ulp q = (2 : ℚ) ^ (b - 52) := by
    unfold ulp; rw [binade_eq_of_bounds hq hb hlo hhi]
  rw [hu, roundHalfEven_tie_even _ N htie hN, if_neg (not_le.mpr hfin)]

theorem percent_7_18 :
    percentPositiveOf (JVal.num (JNum.fin 7))
      (jsAdd (JVal.num (JNum.fin 7)) (JVal.num (JNum.fin 18)))
      = JVal.num (JNum.fin (7881299347898369 / 281474976710656)) := by
  have h25 : fl 25 = JNum.fin 25 := by
    have := isDouble_natCast 25 (by norm_num)
    unfold IsDouble at this
    exact_mod_cast this
  have hsum : JNum.add (JNum.fin 7) (JNum.fin 18) = JNum.fin 25 := by
    simp only [JNum.add]
    norm_num
    exact h25
  have hdiv : JNum.div (JNum.fin 7) (JNum.fin 25)
      = JNum.fin ((5044031582654956 : ℤ) * (2 : ℚ) ^ ((-2 : ℤ) - 52)) := by
    have hne : (25 : ℚ) ≠ 0 := by norm_num
    simp only [JNum.div, hne, if_false]
    exact fl_eval (7 / 25) (-2) 5044031582654956 (by norm_num) (by norm_num) (by norm_num)
      (by norm_num) (by norm_num) (by norm_num) (by norm_num)
  have hmul : JNum.mul (JNum.fin ((5044031582654956 : ℤ) * (2 : ℚ) ^ ((-2 : ℤ) - 52)))
      (JNum.fin 100) = JNum.fin (7881299347898369 / 281474976710656) := by
    simp only [JNum.mul]
    have := fl_eval ((5044031582654956 : ℤ) * (2 : ℚ) ^ ((-2 : ℤ) - 52) * 100) 4
      7881299347898369 (by norm_num) (by norm_num) (by norm_num)
      (by norm_num) (by norm_num) (by norm_num) (by norm_num)
    rw [this]
    norm_num
  have hpos : JNum.isPositive (JNum.fin 25) = true := by simp [JNum.isPositive]
  simp only [jsAdd, hsum, percentPositiveOf, jsGtZero, hpos, if_true, jsDiv, hdiv, jsMul, hmul]

theorem sum_2pow53_1 :
    jsAdd (JVal.num (JNum.fin 9007199254740992)) (JVal.num (JNum.fin 1))
      = JVal.num (JNum.fin 9007199254740992) := by
  simp only [jsAdd, JNum.add]
  have := fl_eval_tie_even (9007199254740992 + 1) 53 4503599627370496 (by norm_num)
    (by norm_num) (by norm_num) (by norm_num) (by norm_num) (by norm_num) (by norm_num)
  rw [this]
  norm_num

/-- C8, as stated, fails in binary64 arithmetic: for 7 positive and 18 negative reviews
`percentPositive` is `7881299347898369 / 2^48` (printed 28.000000000000004), not
`7 / (7 + 18) * 100`; for `2^53` positive reviews and 1 negative review `totalReviews`
is `2^53`, not `2^53 + 1`. -/
theorem getReviewSummary_percent_rounded :
    (∃ (s : JVal) (w1 : World) (pct : ℚ),
      getReviewSummary sampleHost "440" (freshWorld [reviewReplySeven]) = (some s, w1) ∧
      s.get "percentPositive" = JVal.num (JNum.fin pct) ∧
      pct ≠ (7 : ℚ) / (7 + 18) * 100) ∧
    (∃ (s : JVal) (w1 : World) (total : ℚ),
      getReviewSummary sampleHost "440" (freshWorld [reviewReplyHuge]) = (some s, w1) ∧
      s.get "totalReviews" = JVal.num (JNum.fin total) ∧
      total ≠ (9007199254740992 : ℚ) + 1) :=
  ⟨⟨_, _, 7881299347898369 / 281474976710656,
      getReviewSummary_fresh_some sampleHost "440" (freshWorld [reviewReplySeven])
        reviewReplySeven [] _ "Mostly Negative" rfl rfl rfl rfl rfl rfl rfl,
      percent_7_18, by norm_num⟩,
   ⟨_, _, 9007199254740992,
      getReviewSummary_fresh_some sampleHost "440" (freshWorld [reviewReplyHuge])
        reviewReplyHuge [] _ "Positive" rfl rfl rfl rfl rfl rfl rfl,
      sum_2pow53_1, by norm_num⟩⟩

end SteamAppBot
